import Mathlib

/-!
Verification development for the `forges` Go module (github.com/git-pkgs/forges):
a provider-agnostic facade over source-code hosting services.

Strings are modelled as `List Char` (a faithful rendering of Go strings for the
inputs at hand, which are plain Unicode text).  Machine integers (`Go int`) are
modelled as `Int`.  Network interaction is modelled by explicit "response"
values handed to the embedded functions: each embedded function is the source
function with its HTTP/SDK calls replaced by the corresponding response
parameter, everything else translated verbatim.
-/

/-- Strings as character lists. -/
abbrev Str := List Char

instance {ε α : Type} [DecidableEq ε] [DecidableEq α] : DecidableEq (Except ε α)
  | .ok x, .ok y =>
    if h : x = y then isTrue (by rw [h]) else isFalse (by intro he; cases he; exact h rfl)
  | .ok _, .error _ => isFalse (by intro h; cases h)
  | .error _, .ok _ => isFalse (by intro h; cases h)
  | .error e, .error f =>
    if h : e = f then isTrue (by rw [h]) else isFalse (by intro he; cases he; exact h rfl)

namespace Forges

/- ### Character-list primitives, modelling the fragment of Go's `strings`
package used by the source (`strings.HasPrefix`, `TrimPrefix`, `TrimSpace`,
`TrimSuffix`, `Trim(s, "/")`, `Index(s, ":")`, `Contains`, `Split`). -/

/-- Model of `strings.HasPrefix`. -/
def hasPref : Str → Str → Bool
  | [], _ => true
  | _ :: _, [] => false
  | p :: ps, c :: cs => p == c && hasPref ps cs

/-- Drop a prefix, returning `none` when it is not a prefix
(used to model `strings.TrimSuffix` on reversed lists). -/
def dropPref : Str → Str → Option Str
  | [], l => some l
  | _ :: _, [] => none
  | p :: ps, c :: cs => if p == c then dropPref ps cs else none

/-- Does the character `c` occur in `l`?  Models the `strings.Index(l, c) >= 0`
tests and `strings.LastIndex` presence checks. -/
def hasCharL (c : Char) (l : Str) : Bool := l.any (fun d => d == c)

/-- Model of `strings.Contains(l, pat)`. -/
def containsSub (pat : Str) : Str → Bool
  | [] => pat.isEmpty
  | c :: rest => hasPref pat (c :: rest) || containsSub pat rest

/-- Split at the first occurrence of `pat` (the occurrence removed), `none`
when `pat` does not occur.  Models `strings.Index` followed by slicing. -/
def splitFirstSub (pat : Str) : Str → Option (Str × Str)
  | [] => if pat.isEmpty then some ([], []) else none
  | c :: rest =>
    if hasPref pat (c :: rest) then some ([], (c :: rest).drop pat.length)
    else
      match splitFirstSub pat rest with
      | some (pre, post) => some (c :: pre, post)
      | none => none

/-- Model of `strings.TrimSuffix`. -/
def trimSuffixL (suf l : Str) : Str :=
  match dropPref suf.reverse l.reverse with
  | some rest => rest.reverse
  | none => l

/-- Does `l` end with `suf`?  (`strings.HasSuffix`.) -/
def endsWithL (suf l : Str) : Bool := (dropPref suf.reverse l.reverse).isSome

/-- Model of `strings.TrimSpace` (trim leading and trailing whitespace). -/
def trimSpaceL (l : Str) : Str :=
  (((l.dropWhile (fun c => c.isWhitespace)).reverse.dropWhile (fun c => c.isWhitespace)).reverse)

/-- Model of `strings.Trim(l, "/")`: trim leading and trailing slashes. -/
def trimSlashesL (l : Str) : Str :=
  (((l.dropWhile (fun c => c == '/')).reverse.dropWhile (fun c => c == '/')).reverse)

/-- Model of `strings.Split(l, "/")` (single-character separator). -/
def splitOnChar (sep : Char) : Str → List Str
  | [] => [[]]
  | c :: rest =>
    if c == sep then [] :: splitOnChar sep rest
    else
      match splitOnChar sep rest with
      | [] => [[c]]
      | p :: ps => (c :: p) :: ps

/- ### Error values

Go returns `error` values; the source distinguishes them by identity
(`ErrNotFound`, `ErrOwnerNotFound`), by type (`*HTTPError`), or by message.
`Err` renders each error the source can produce as a distinct constructor. -/

/-- The error values of the `forges` package. -/
inductive Err where
  /-- `fmt.Errorf("empty URL")` in `ParseRepoURL`. -/
  | emptyURL
  /-- `fmt.Errorf("invalid SSH URL: missing colon")` in `ParseRepoURL`. -/
  | sshMissingColon
  /-- `fmt.Errorf("invalid URL: %w", err)`: `url.Parse` failed. -/
  | invalidURL
  /-- `fmt.Errorf("URL path must contain owner/repo, got %q", path)`. -/
  | pathTooShort
  /-- `ErrNotFound` = `errors.New("repository not found")`. -/
  | notFound
  /-- `ErrOwnerNotFound` (referenced by the list helpers). -/
  | ownerNotFound
  /-- `&HTTPError{StatusCode, URL, Body}`. -/
  | httpError (status : Nat) (url body : Str)
  /-- `fmt.Errorf("no forge registered for domain %q", domain)`. -/
  | noForgeRegistered (domain : Str)
  /-- `fmt.Errorf("could not detect forge type for %s", baseURL)`. -/
  | couldNotDetect (baseURL : Str)
  /-- `fmt.Errorf("unsupported forge type %q for %s", ft, domain)` in
  `Client.RegisterDomain` (the forge-type string kept abstract as `Str`). -/
  | unsupportedForge (ft domain : Str)
  /-- `fmt.Errorf("detecting forge type for %s: %w", domain, err)`. -/
  | detectWrap (domain : Str) (inner : Err)
  /-- An opaque transport / SDK / decoding error produced outside this
  package and passed through unchanged. -/
  | transport (msg : Str)
  deriving DecidableEq, Repr

/- ### URL parsing (`src/forges.go`, `ParseRepoURL` / `splitOwnerRepo`) -/

/-- The characters of `"git@"`. -/
def gitAtL : Str := ['g', 'i', 't', '@']

/-- The characters of `"://"`. -/
def schemeSepL : Str := [':', '/', '/']

/-- The characters of `"https://"`. -/
def httpsL : Str := ['h', 't', 't', 'p', 's', ':', '/', '/']

/-- The characters of `"https"`. -/
def httpsSchemeL : Str := ['h', 't', 't', 'p', 's']

/-- The characters of `".git"`. -/
def dotGitL : Str := ['.', 'g', 'i', 't']

/-- Go `url.Parse` scheme validation (`getScheme`): first character a letter,
the rest letters, digits, `+`, `-` or `.`. -/
def validSchemeL : Str → Bool
  | [] => false
  | c :: rest =>
    c.isAlpha && rest.all (fun d => d.isAlpha || d.isDigit || d == '+' || d == '-' || d == '.')

/-- Go `net/url`: the userinfo is everything up to the *last* `@` of the
authority and is dropped; the host is what follows. -/
def dropUserinfo (auth : Str) : Str :=
  if hasCharL '@' auth then (auth.reverse.takeWhile (fun c => c != '@')).reverse else auth

/-- Go `net/url` `validOptionalPort`: when the host contains a colon, the text
after the last colon must be all digits (possibly empty), otherwise
`url.Parse` fails with an invalid-port error. -/
def hostPortSplitOK (host : Str) : Bool :=
  if hasCharL ':' host then (host.reverse.takeWhile (fun c => c != ':')).all (fun c => c.isDigit)
  else true

/-- Go `(*URL).Hostname()`: the host with any (valid) port stripped. -/
def hostnameOf (host : Str) : Str :=
  if hasCharL ':' host then ((host.reverse.dropWhile (fun c => c != ':')).drop 1).reverse
  else host

/-- Model of the fragment of Go's `net/url.Parse` exercised by
`ParseRepoURL`: split the scheme at the first `"://"`, validate it, take the
authority up to the first `/`, drop the userinfo (after the last `@`),
validate the optional port, and return `(u.Hostname(), u.Path)`.
The inputs reaching it here carry no query, fragment, percent-escapes or
IPv6 brackets, so those aspects of `net/url` are not modelled. -/
def goParseURL (l : Str) : Option (Str × Str) :=
  match splitFirstSub schemeSepL l with
  | none => none
  | some (scheme, rest) =>
    if validSchemeL scheme then
      let authority := rest.takeWhile (fun c => c != '/')
      let path := rest.dropWhile (fun c => c != '/')
      let host := dropUserinfo authority
      if hostPortSplitOK host then some (hostnameOf host, path) else none
    else none

/-- `splitOwnerRepo` (src/forges.go): strip a trailing `".git"`, trim leading
and trailing slashes, split on `/`; fewer than two parts is an error,
otherwise the first two parts are owner and repo. -/
def splitOwnerRepo (domain path : Str) : Except Err (Str × Str × Str) :=
  let path1 := trimSuffixL dotGitL path
  let path2 := trimSlashesL path1
  match splitOnChar '/' path2 with
  | p0 :: p1 :: _ => .ok (domain, p0, p1)
  | _ => .error .pathTooShort

/-- `ParseRepoURL` (src/forges.go): extract `(domain, owner, repo)` from a
repository URL, handling `https://`, schemeless and `git@host:owner/repo`
SSH forms. -/
def ParseRepoURL (rawURL : Str) : Except Err (Str × Str × Str) :=
  let raw := trimSpaceL rawURL
  if raw.isEmpty then .error .emptyURL
  else if hasPref gitAtL raw then
    let r := raw.drop gitAtL.length
    match splitFirstSub [':'] r with
    | none => .error .sshMissingColon
    | some (domain, path) => splitOwnerRepo domain path
  else
    let raw2 := if containsSub schemeSepL raw then raw else httpsL ++ raw
    match goParseURL raw2 with
    | none => .error .invalidURL
    | some (host, path) => splitOwnerRepo host path

/- ### Data model (src/types.go) -/

/-- `ForgeType` identifies which forge software a domain runs.  In Go it is a
string type with six named constants; the closed set of constants is rendered
as an inductive. -/
inductive ForgeType where
  | github
  | gitlab
  | gitea
  | forgejo
  | bitbucket
  | unknown
  deriving DecidableEq, Repr

/-- The string value of a `ForgeType` constant (used in error messages). -/
def ForgeType.str : ForgeType → Str
  | .github => ("github").toList
  | .gitlab => ("gitlab").toList
  | .gitea => ("gitea").toList
  | .forgejo => ("forgejo").toList
  | .bitbucket => ("bitbucket").toList
  | .unknown => ("unknown").toList

/-- Normalized repository metadata (`Repository`, src/types.go).  Go's zero
values are the field defaults: `""`, `false`, `0`.  `time.Time` values are
modelled as `Int` (0 standing for the zero time, matching `IsZero`).
Go's `Private` field is named `priv` because `private` is reserved in Lean. -/
structure Repository where
  fullName : Str := []
  owner : Str := []
  name : Str := []
  description : Str := []
  homepage : Str := []
  htmlURL : Str := []
  language : Str := []
  license : Str := []
  defaultBranch : Str := []
  fork : Bool := false
  archived : Bool := false
  priv : Bool := false
  mirrorURL : Str := []
  sourceName : Str := []
  size : Int := 0
  stargazersCount : Int := 0
  forksCount : Int := 0
  openIssuesCount : Int := 0
  subscribersCount : Int := 0
  hasIssues : Bool := false
  pullRequestsEnabled : Bool := false
  topics : List Str := []
  logoURL : Str := []
  createdAt : Int := 0
  updatedAt : Int := 0
  pushedAt : Int := 0
  deriving DecidableEq, Repr

/-- `ArchivedFilter` (src/types.go). -/
inductive ArchivedFilter where
  | ArchivedInclude
  | ArchivedExclude
  | ArchivedOnly
  deriving DecidableEq, Repr

/-- `ForkFilter` (src/types.go). -/
inductive ForkFilter where
  | ForkInclude
  | ForkExclude
  | ForkOnly
  deriving DecidableEq, Repr

/-- `ListOptions` (src/types.go). -/
structure ListOptions where
  archived : ArchivedFilter := .ArchivedInclude
  forks : ForkFilter := .ForkInclude
  perPage : Int := 0
  deriving DecidableEq, Repr

/-- `Tag` (src/types.go): a name and the commit SHA it points to. -/
structure Tag where
  name : Str := []
  commit : Str := []
  deriving DecidableEq, Repr

/- ### Repository filter

`FilterRepos` is called by `gitLabForge.ListRepositories` and
`giteaForge.ListRepositories` and exercised by `TestFilterRepos`, but its
definition is not among the provided sources, so it is modelled from §4.5 of
the specification. -/

/-- Modelled from the spec: the archived policy of §4.5 — include: no
constraint; exclude: reject archived; only: reject non-archived. -/
def archivedAllows : ArchivedFilter → Bool → Bool
  | .ArchivedInclude, _ => true
  | .ArchivedExclude, a => !a
  | .ArchivedOnly, a => a

/-- Modelled from the spec: the fork policy of §4.5, the same three-way
semantics on the fork flag. -/
def forkAllows : ForkFilter → Bool → Bool
  | .ForkInclude, _ => true
  | .ForkExclude, f => !f
  | .ForkOnly, f => f

/-- Modelled from the spec: `FilterRepos` is absent from the provided sources
(only its callers and `TestFilterRepos` appear).  §4.5: include a repository
iff it passes BOTH the archived policy AND the fork policy; input order among
surviving repositories is preserved. -/
def FilterRepos (repos : List Repository) (opts : ListOptions) : List Repository :=
  repos.filter (fun r => archivedAllows opts.archived r.archived && forkAllows opts.forks r.fork)

/- ### GitLab adapter (src/forges.go, `gitLabForge`)

The GitLab SDK's `*gitlab.Project` is rendered as `GLProject`; optional
sub-objects are `Option` fields.  `time.Time` values arrive already parsed
from the SDK and are carried as `Int`. -/

/-- The `Namespace` sub-object of a GitLab project. -/
structure GLNamespace where
  path : Str := []
  avatarURL : Str := []
  deriving DecidableEq, Repr

/-- The fields of `*gitlab.Project` read by `convertGitLabProject`. -/
structure GLProject where
  pathWithNamespace : Str := []
  name : Str := []
  description : Str := []
  webURL : Str := []
  defaultBranch : Str := []
  archived : Bool := false
  visibility : Str := []
  starCount : Int := 0
  forksCount : Int := 0
  openIssuesCount : Int := 0
  mergeRequestsEnabled : Bool := false
  topics : List Str := []
  /-- Go field `Namespace` (`namespace` is reserved in Lean). -/
  nspace : Option GLNamespace := none
  licenseKey : Option Str := none
  forkedFromPathWithNamespace : Option Str := none
  createdAt : Option Int := none
  lastActivityAt : Option Int := none
  deriving DecidableEq, Repr

/-- `gitlab.PrivateVisibility` is the string `"private"`. -/
def privateVisibilityL : Str := ("private").toList

/-- `convertGitLabProject` (src/forges.go). -/
def convertGitLabProject (p : GLProject) : Repository :=
  let r0 : Repository :=
    { fullName := p.pathWithNamespace
      name := p.name
      description := p.description
      htmlURL := p.webURL
      defaultBranch := p.defaultBranch
      archived := p.archived
      priv := p.visibility == privateVisibilityL
      stargazersCount := p.starCount
      forksCount := p.forksCount
      openIssuesCount := p.openIssuesCount
      hasIssues := true
      pullRequestsEnabled := p.mergeRequestsEnabled
      topics := p.topics }
  let r1 :=
    match p.nspace with
    | some ns => { r0 with owner := ns.path, logoURL := ns.avatarURL }
    | none => r0
  let r2 :=
    match p.licenseKey with
    | some k => { r1 with license := k }
    | none => r1
  let r3 :=
    match p.forkedFromPathWithNamespace with
    | some fn => { r2 with fork := true, sourceName := fn }
    | none => r2
  let r4 :=
    match p.createdAt with
    | some t => { r3 with createdAt := t }
    | none => r3
  match p.lastActivityAt with
  | some t => { r4 with updatedAt := t }
  | none => r4

/-- The outcome of one SDK call that returns a value, an `error` and a
`*Response`: either success with the decoded value, or an error together with
the HTTP status of the response when one exists (`resp != nil`). -/
inductive SDKCall (α : Type) where
  | fail (respStatus : Option Nat) (e : Err)
  | ok (val : α)
  deriving DecidableEq, Repr

/-- `gitLabForge.FetchRepository` (src/forges.go): a 404 response maps to
`ErrNotFound`, any other error is returned unchanged, success is converted. -/
def gitLabFetchRepository : SDKCall GLProject → Except Err Repository
  | .fail respStatus e => if respStatus == some 404 then .error .notFound else .error e
  | .ok p => .ok (convertGitLabProject p)

/-- One page outcome of a paginated SDK endpoint with a `NextPage` indicator
(GitHub and GitLab SDKs). -/
inductive SDKPage (α : Type) where
  | fail (respStatus : Option Nat) (e : Err)
  | page (items : List α) (nextPage : Nat)
  deriving DecidableEq, Repr

/-- Message used where the model's finite response stream runs out — the Go
loop would issue another request; the model treats that as a transport
failure. -/
def noResponseMsg : Str := ("model: response stream exhausted").toList

/-- The fields of `*gitlab.Tag` read by `gitLabForge.FetchTags`. -/
structure GLTag where
  name : Str := []
  commitID : Option Str := none
  deriving DecidableEq, Repr

/-- `gitLabForge.FetchTags` (src/forges.go): page-walk until `NextPage == 0`,
accumulating tags in provider order; a 404 maps to `ErrNotFound`; any error
discards pages already fetched. -/
def gitLabFetchTags : List (SDKPage GLTag) → Except Err (List Tag)
  | [] => .error (.transport noResponseMsg)
  | .fail respStatus e :: _ =>
    if respStatus == some 404 then .error .notFound else .error e
  | .page ts next :: rest =>
    let conv := ts.map (fun t => { name := t.name, commit := t.commitID.getD [] : Tag })
    if next == 0 then .ok conv
    else
      match gitLabFetchTags rest with
      | .ok more => .ok (conv ++ more)
      | .error e => .error e

/-- `gitLabForge.listGroupProjects` / `listUserProjects` (src/forges.go):
page-walk until `NextPage == 0`; a 404 response maps to `ErrOwnerNotFound`;
other errors are returned unchanged. -/
def gitLabListWalk : List (SDKPage GLProject) → Except Err (List Repository)
  | [] => .error (.transport noResponseMsg)
  | .fail respStatus e :: _ =>
    if respStatus == some 404 then .error .ownerNotFound else .error e
  | .page ps next :: rest =>
    let conv := ps.map convertGitLabProject
    if next == 0 then .ok conv
    else
      match gitLabListWalk rest with
      | .ok more => .ok (conv ++ more)
      | .error e => .error e

/-- `gitLabForge.ListRepositories` (src/forges.go): try the group endpoint
first; on any error from it fall back to the user endpoint; filter once at
the end.  (`opts.PerPage`, defaulted to 100 when non-positive, only sizes the
requests and does not otherwise affect the result.) -/
def gitLabListRepositories (groupCalls userCalls : List (SDKPage GLProject))
    (opts : ListOptions) : Except Err (List Repository) :=
  match gitLabListWalk groupCalls with
  | .ok repos => .ok (FilterRepos repos opts)
  | .error _ =>
    match gitLabListWalk userCalls with
    | .ok repos => .ok (FilterRepos repos opts)
    | .error e => .error e

/- ### GitHub adapter (`gitHubForge`, companion document of src/forges.go)

`*github.Repository` is accessed through nil-tolerant getters (`GetFullName`
etc.) that return zero values for missing fields; the payload is therefore
rendered with plain (pre-defaulted) fields, with `Option` kept exactly where
the source tests a sub-object against `nil` (`License`, `Parent`). -/

/-- The getter-level view of `*github.Repository`. -/
structure GHRepoPayload where
  fullName : Str := []
  name : Str := []
  description : Str := []
  homepage : Str := []
  htmlURL : Str := []
  language : Str := []
  defaultBranch : Str := []
  mirrorURL : Str := []
  fork : Bool := false
  archived : Bool := false
  priv : Bool := false
  hasIssues : Bool := false
  size : Int := 0
  stargazersCount : Int := 0
  forksCount : Int := 0
  openIssuesCount : Int := 0
  subscribersCount : Int := 0
  topics : List Str := []
  ownerLogin : Str := []
  ownerAvatarURL : Str := []
  spdxID : Option Str := none
  parentFullName : Option Str := none
  createdAt : Int := 0
  updatedAt : Int := 0
  pushedAt : Int := 0
  deriving DecidableEq, Repr

/-- The string `"NOASSERTION"`. -/
def noAssertionL : Str := ("NOASSERTION").toList

/-- The conversion performed inside `gitHubForge.FetchRepository`. -/
def convertGitHubRepo (r : GHRepoPayload) : Repository :=
  let r0 : Repository :=
    { fullName := r.fullName
      owner := r.ownerLogin
      name := r.name
      description := r.description
      homepage := r.homepage
      htmlURL := r.htmlURL
      language := r.language
      defaultBranch := r.defaultBranch
      fork := r.fork
      archived := r.archived
      priv := r.priv
      mirrorURL := r.mirrorURL
      size := r.size
      stargazersCount := r.stargazersCount
      forksCount := r.forksCount
      openIssuesCount := r.openIssuesCount
      subscribersCount := r.subscribersCount
      hasIssues := r.hasIssues
      pullRequestsEnabled := true
      topics := r.topics
      logoURL := r.ownerAvatarURL }
  let r1 :=
    match r.spdxID with
    | some spdx =>
      if spdx != [] && spdx != noAssertionL then { r0 with license := spdx } else r0
    | none => r0
  let r2 :=
    match r.parentFullName with
    | some fn => { r1 with sourceName := fn }
    | none => r1
  let r3 := if r.createdAt != 0 then { r2 with createdAt := r.createdAt } else r2
  let r4 := if r.updatedAt != 0 then { r3 with updatedAt := r.updatedAt } else r3
  if r.pushedAt != 0 then { r4 with pushedAt := r.pushedAt } else r4

/-- `gitHubForge.FetchRepository`. -/
def gitHubFetchRepository : SDKCall GHRepoPayload → Except Err Repository
  | .fail respStatus e => if respStatus == some 404 then .error .notFound else .error e
  | .ok r => .ok (convertGitHubRepo r)

/-- The fields of `*github.RepositoryTag` read by `gitHubForge.FetchTags`. -/
structure GHTag where
  name : Str := []
  commitSHA : Option Str := none
  deriving DecidableEq, Repr

/-- `gitHubForge.FetchTags`: page-walk until `NextPage == 0`. -/
def gitHubFetchTags : List (SDKPage GHTag) → Except Err (List Tag)
  | [] => .error (.transport noResponseMsg)
  | .fail respStatus e :: _ =>
    if respStatus == some 404 then .error .notFound else .error e
  | .page ts next :: rest =>
    let conv := ts.map (fun t => { name := t.name, commit := t.commitSHA.getD [] : Tag })
    if next == 0 then .ok conv
    else
      match gitHubFetchTags rest with
      | .ok more => .ok (conv ++ more)
      | .error e => .error e

/- ### Gitea adapter (`giteaForge`, src/gitea.go and src/unnamed/part_001) -/

/-- The fields of `*gitea.Repository` read by `convertGiteaRepo`. -/
structure GiteaRepoPayload where
  fullName : Str := []
  ownerUserName : Str := []
  name : Str := []
  description : Str := []
  website : Str := []
  htmlURL : Str := []
  language : Str := []
  defaultBranch : Str := []
  fork : Bool := false
  archived : Bool := false
  priv : Bool := false
  mirror : Bool := false
  hasIssues : Bool := false
  hasPullRequests : Bool := false
  size : Int := 0
  stars : Int := 0
  forks : Int := 0
  openIssues : Int := 0
  avatarURL : Str := []
  originalURL : Str := []
  created : Int := 0
  updated : Int := 0
  parentFullName : Option Str := none
  deriving DecidableEq, Repr

/-- `convertGiteaRepo` (src/unnamed/part_001). -/
def convertGiteaRepo (r : GiteaRepoPayload) : Repository :=
  let r0 : Repository :=
    { fullName := r.fullName
      owner := r.ownerUserName
      name := r.name
      description := r.description
      homepage := r.website
      htmlURL := r.htmlURL
      language := r.language
      defaultBranch := r.defaultBranch
      fork := r.fork
      archived := r.archived
      priv := r.priv
      size := r.size
      stargazersCount := r.stars
      forksCount := r.forks
      openIssuesCount := r.openIssues
      hasIssues := r.hasIssues
      pullRequestsEnabled := r.hasPullRequests
      logoURL := r.avatarURL
      createdAt := r.created
      updatedAt := r.updated }
  let r1 := if r.mirror then { r0 with mirrorURL := r.originalURL } else r0
  match r.parentFullName with
  | some fn => { r1 with sourceName := fn }
  | none => r1

/-- `giteaForge.FetchRepository` (src/unnamed/part_001): a 404 maps to
`ErrNotFound`; topics are fetched by a secondary call whose failure is
tolerated (the repository is returned without topics). -/
def giteaFetchRepository (call : SDKCall GiteaRepoPayload)
    (topicsCall : SDKCall (List Str)) : Except Err Repository :=
  match call with
  | .fail respStatus e => if respStatus == some 404 then .error .notFound else .error e
  | .ok r =>
    let result := convertGiteaRepo r
    match topicsCall with
    | .ok ts => .ok { result with topics := ts }
    | .fail _ _ => .ok result

/-- One page outcome of a Gitea SDK paginated endpoint (the Gitea loops stop
on a short page rather than on a `NextPage` indicator). -/
inductive GiteaSDKPage (α : Type) where
  | fail (respStatus : Option Nat) (e : Err)
  | page (items : List α)
  deriving DecidableEq, Repr

/-- The fields of `*gitea.Tag` read by `giteaForge.FetchTags`. -/
structure GiteaTag where
  name : Str := []
  commitSHA : Option Str := none
  deriving DecidableEq, Repr

/-- `giteaForge.FetchTags` (src/gitea.go): page-walk with `PageSize: 50`,
stopping when a page is shorter than 50. -/
def giteaFetchTags : List (GiteaSDKPage GiteaTag) → Except Err (List Tag)
  | [] => .error (.transport noResponseMsg)
  | .fail respStatus e :: _ =>
    if respStatus == some 404 then .error .notFound else .error e
  | .page ts :: rest =>
    let conv := ts.map (fun t => { name := t.name, commit := t.commitSHA.getD [] : Tag })
    if ts.length < 50 then .ok conv
    else
      match giteaFetchTags rest with
      | .ok more => .ok (conv ++ more)
      | .error e => .error e

/-- `giteaForge.listOrgRepos` / `listUserRepos` (src/unnamed/part_001):
page-walk, stopping when a page is shorter than `perPage`; a 404 response
maps to `ErrOwnerNotFound`. -/
def giteaListWalk (perPage : Int) : List (GiteaSDKPage GiteaRepoPayload) →
    Except Err (List Repository)
  | [] => .error (.transport noResponseMsg)
  | .fail respStatus e :: _ =>
    if respStatus == some 404 then .error .ownerNotFound else .error e
  | .page rs :: rest =>
    let conv := rs.map convertGiteaRepo
    if (rs.length : Int) < perPage then .ok conv
    else
      match giteaListWalk perPage rest with
      | .ok more => .ok (conv ++ more)
      | .error e => .error e

/-- `giteaForge.ListRepositories` (src/unnamed/part_001): try the org
endpoint first; on any error fall back to the user endpoint; filter once. -/
def giteaListRepositories (orgCalls userCalls : List (GiteaSDKPage GiteaRepoPayload))
    (opts : ListOptions) : Except Err (List Repository) :=
  let perPage : Int := if opts.perPage ≤ 0 then 50 else opts.perPage
  match giteaListWalk perPage orgCalls with
  | .ok repos => .ok (FilterRepos repos opts)
  | .error _ =>
    match giteaListWalk perPage userCalls with
    | .ok repos => .ok (FilterRepos repos opts)
    | .error e => .error e

/- ### Bitbucket adapter (src/bitbucket.go)

The Bitbucket adapter speaks HTTP directly through `getJSON`; an HTTP
exchange is modelled by `BBResponse`: either a transport failure from
`httpClient.Do`, or a response with a status, a raw body, and — when the body
is JSON-decodable into the expected shape — the decoded payload. -/

/-- Outcome of one Bitbucket HTTP request. -/
inductive BBResponse (α : Type) where
  | transportFail (e : Err)
  | resp (status : Nat) (body : Str) (payload : Option α)
  deriving DecidableEq, Repr

/-- `bitbucketAPI` (src/bitbucket.go), the default API base URL. -/
def bitbucketAPIL : Str := ("https://api.bitbucket.org/2.0").toList

/-- `bitbucketForge.getJSON` (src/bitbucket.go): a 404 maps to `ErrNotFound`;
any other non-200 status produces `&HTTPError{StatusCode, URL, Body}`; a 200
body that fails to decode yields the decoder's error. -/
def bitbucketGetJSON {α : Type} (url : Str) : BBResponse α → Except Err α
  | .transportFail e => .error e
  | .resp status body payload =>
    if status == 404 then .error .notFound
    else if status != 200 then .error (.httpError status url body)
    else
      match payload with
      | some v => .ok v
      | none => .error (.transport ("json decode error").toList)

/-- The fields of the Bitbucket repository JSON (`bbRepository`) read by
`bitbucketForge.FetchRepository`.  `CreatedOn`/`UpdatedOn` are RFC3339 text in
Go, handed to the standard library's `time.Parse`; the model carries the
parse outcome (`some` parsed instant, or `none` when parsing fails). -/
structure BBRepoPayload where
  slug : Str := []
  name : Str := []
  fullName : Str := []
  description : Str := []
  website : Str := []
  language : Str := []
  isPrivate : Bool := false
  size : Int := 0
  hasIssues : Bool := false
  mainBranchName : Option Str := none
  ownerUsername : Option Str := none
  parentFullName : Option Str := none
  linksHTMLHref : Str := []
  linksAvatarHref : Str := []
  createdOn : Option Int := none
  updatedOn : Option Int := none
  deriving DecidableEq, Repr

/-- The conversion performed inside `bitbucketForge.FetchRepository`. -/
def convertBitbucketRepo (bb : BBRepoPayload) : Repository :=
  let r0 : Repository :=
    { fullName := bb.fullName
      name := bb.slug
      description := bb.description
      homepage := bb.website
      language := bb.language
      priv := bb.isPrivate
      size := bb.size
      hasIssues := bb.hasIssues
      htmlURL := bb.linksHTMLHref
      logoURL := bb.linksAvatarHref }
  let r1 :=
    match bb.ownerUsername with
    | some u => { r0 with owner := u }
    | none => r0
  let r2 :=
    match bb.mainBranchName with
    | some b => { r1 with defaultBranch := b }
    | none => r1
  let r3 :=
    match bb.parentFullName with
    | some fn => { r2 with fork := true, sourceName := fn }
    | none => r2
  let r4 :=
    match bb.createdOn with
    | some t => { r3 with createdAt := t }
    | none => r3
  match bb.updatedOn with
  | some t => { r4 with updatedAt := t }
  | none => r4

/-- The request URL built by `bitbucketForge.FetchRepository`. -/
def bbRepoURL (owner repo : Str) : Str :=
  bitbucketAPIL ++ ("/repositories/").toList ++ owner ++ ['/'] ++ repo

/-- `bitbucketForge.FetchRepository` (src/bitbucket.go). -/
def bitbucketFetchRepository (owner repo : Str) (out : BBResponse BBRepoPayload) :
    Except Err Repository :=
  match bitbucketGetJSON (bbRepoURL owner repo) out with
  | .error e => .error e
  | .ok bb => .ok (convertBitbucketRepo bb)

/-- A decoded page of the Bitbucket tags endpoint (`bbTagsResponse`): the
tag values as (name, target hash) pairs plus the `next` cursor URL. -/
structure BBTagsPage where
  values : List (Str × Str) := []
  next : Str := []
  deriving DecidableEq, Repr

/-- The first request URL built by `bitbucketForge.FetchTags`. -/
def bbTagsURL (owner repo : Str) : Str :=
  bitbucketAPIL ++ ("/repositories/").toList ++ owner ++ ['/'] ++ repo ++
    ("/refs/tags?pagelen=100").toList

/-- `bitbucketForge.FetchTags` (src/bitbucket.go): follow the `next` cursor
URL until it is empty, accumulating tags; errors from `getJSON` (including
the 404 → `ErrNotFound` mapping) discard pages already fetched. -/
def bitbucketTagsWalk (url : Str) : List (BBResponse BBTagsPage) → Except Err (List Tag)
  | [] => .error (.transport noResponseMsg)
  | out :: rest =>
    match bitbucketGetJSON url out with
    | .error e => .error e
    | .ok page =>
      let conv := page.values.map (fun nv => { name := nv.1, commit := nv.2 : Tag })
      if page.next == [] then .ok conv
      else
        match bitbucketTagsWalk page.next rest with
        | .ok more => .ok (conv ++ more)
        | .error e => .error e

/-- `bitbucketForge.FetchTags`, started at the canonical first-page URL. -/
def bitbucketFetchTags (owner repo : Str) (outs : List (BBResponse BBTagsPage)) :
    Except Err (List Tag) :=
  bitbucketTagsWalk (bbTagsURL owner repo) outs

/- ### Forge detection (src/types.go: `DetectForgeType`, `detectFromHeaders`,
`detectFromAPI`, `probeGiteaAPI`, `probeURL`)

The network is modelled by a `World`: the observable outcome of each of the
four probe requests against the domain. -/

/-- Outcome of `GET https://{domain}/`: a transport failure, or the values of
the four identifying response headers (`Header.Get` returns `""` for an
absent header, so absence and emptiness coincide, as in the source). -/
structure HeaderProbe where
  transportErr : Bool := false
  forgejoVersion : Str := []
  giteaVersion : Str := []
  gitlabMeta : Str := []
  githubRequestId : Str := []
  deriving DecidableEq, Repr

/-- Outcome of `GET {base}/api/v1/version`: transport failure, HTTP status,
whether the body decoded as `{"version": ...}`, and the version string. -/
structure GiteaProbe where
  transportErr : Bool := false
  status : Nat := 0
  decodeOk : Bool := false
  version : Str := []
  deriving DecidableEq, Repr

/-- Outcome of a bare `probeURL` request: transport failure and HTTP status. -/
structure URLProbe where
  transportErr : Bool := false
  status : Nat := 0
  deriving DecidableEq, Repr

/-- The observable network behaviour of one domain during detection. -/
structure World where
  root : HeaderProbe
  apiV1 : GiteaProbe
  apiV4 : URLProbe
  apiV3 : URLProbe
  deriving DecidableEq, Repr

/-- `detectFromHeaders` (src/types.go): on transport failure return
`(Unknown, err)`; otherwise check `X-Forgejo-Version`, `X-Gitea-Version`,
`X-Gitlab-Meta`, `X-GitHub-Request-Id` in that order; no match yields
`(Unknown, nil)`. -/
def detectFromHeaders (h : HeaderProbe) : Except Err ForgeType :=
  if h.transportErr then .error (.transport ("header probe failed").toList)
  else if h.forgejoVersion != [] then .ok .forgejo
  else if h.giteaVersion != [] then .ok .gitea
  else if h.gitlabMeta != [] then .ok .gitlab
  else if h.githubRequestId != [] then .ok .github
  else .ok .unknown

/-- The characters of `"forgejo"`. -/
def forgejoL : Str := ['f', 'o', 'r', 'g', 'e', 'j', 'o']

/-- `strings.Contains(strings.ToLower(v.Version), "forgejo")`. -/
def versionContainsForgejo (v : Str) : Bool :=
  containsSub forgejoL (v.map Char.toLower)

/-- `probeGiteaAPI` (src/types.go): error on transport failure, non-200
status, or undecodable body; otherwise Forgejo when the version contains
"forgejo" (case-insensitively), else Gitea. -/
def probeGiteaAPI (g : GiteaProbe) : Except Err ForgeType :=
  if g.transportErr then .error (.transport ("gitea probe transport").toList)
  else if g.status != 200 then .error (.transport ("gitea probe status").toList)
  else if !g.decodeOk then .error (.transport ("gitea probe decode").toList)
  else if versionContainsForgejo g.version then .ok .forgejo
  else .ok .gitea

/-- `probeURL` (src/types.go): whether the URL answered 200. -/
def probeURL (u : URLProbe) : Except Err Bool :=
  if u.transportErr then .error (.transport ("probe transport").toList)
  else .ok (u.status == 200)

/-- `detectFromAPI` (src/types.go): try `/api/v1/version`, then
`/api/v4/version`, then `/api/v3/meta`; first success wins; otherwise the
"could not detect forge type" error. -/
def detectFromAPI (baseURL : Str) (w : World) : Except Err ForgeType :=
  match probeGiteaAPI w.apiV1 with
  | .ok ft => .ok ft
  | .error _ =>
    match probeURL w.apiV4 with
    | .ok true => .ok .gitlab
    | _ =>
      match probeURL w.apiV3 with
      | .ok true => .ok .github
      | _ => .error (.couldNotDetect baseURL)

/-- `DetectForgeType` (src/types.go): header probe first; fall through to API
probing when it errs or yields `Unknown`. -/
def DetectForgeType (domain : Str) (w : World) : Except Err ForgeType :=
  let baseURL := httpsL ++ domain
  match detectFromHeaders w.root with
  | .ok ft => if ft != .unknown then .ok ft else detectFromAPI baseURL w
  | .error _ => detectFromAPI baseURL w

/- ### Client, registry and routing (src/forges.go) -/

/-- The `Forge` interface as seen by the `Client`: the behaviour of one
registered adapter, with the network already fixed (each method is the
adapter's method as a function of owner and repo). -/
structure ForgeIface where
  fetchRepository : Str → Str → Except Err Repository
  fetchTags : Str → Str → Except Err (List Tag)

/-- Association-list lookup, modelling Go map indexing `m[k]`. -/
def lookupA {α : Type} : List (Str × α) → Str → Option α
  | [], _ => none
  | (k, v) :: rest, k' => if k == k' then some v else lookupA rest k'

/-- The `Client`: a domain → adapter registry plus a domain → token map. -/
structure Client where
  forges : List (Str × ForgeIface)
  tokens : List (Str × Str)

/-- `Client.forgeFor` (src/forges.go). -/
def Client.forgeFor (c : Client) (domain : Str) : Except Err ForgeIface :=
  match lookupA c.forges domain with
  | some f => .ok f
  | none => .error (.noForgeRegistered domain)

/-- `Client.FetchRepository` (src/forges.go): parse the URL, resolve the
domain to an adapter, delegate. -/
def Client.FetchRepository (c : Client) (repoURL : Str) : Except Err Repository :=
  match ParseRepoURL repoURL with
  | .error e => .error e
  | .ok (domain, owner, repo) =>
    match c.forgeFor domain with
    | .error e => .error e
    | .ok f => f.fetchRepository owner repo

/-- `Client.FetchTags` (src/forges.go): parse the URL, resolve the domain to
an adapter, delegate. -/
def Client.FetchTags (c : Client) (repoURL : Str) : Except Err (List Tag) :=
  match ParseRepoURL repoURL with
  | .error e => .error e
  | .ok (domain, owner, repo) =>
    match c.forgeFor domain with
    | .error e => .error e
    | .ok f => f.fetchTags owner repo

/- ### Dynamic registration (src/forges.go, `Client.RegisterDomain`)

For the registration question only the kind of adapter constructed matters;
the registry entry is rendered as a constructor descriptor. -/

/-- Which adapter constructor `RegisterDomain` invoked, with its arguments. -/
inductive ForgeAdapter where
  | githubWithBase (baseURL token : Str)
  | gitlabForge (baseURL token : Str)
  | giteaForge (baseURL token : Str)
  deriving DecidableEq, Repr

/-- The `Client`'s registry as updated by `RegisterDomain`. -/
structure RegClient where
  forges : List (Str × ForgeAdapter) := []
  tokens : List (Str × Str) := []
  deriving Repr

/-- Go map assignment `m[k] = v`, modelled as a shadowing prepend. -/
def insertA {α : Type} (m : List (Str × α)) (k : Str) (v : α) : List (Str × α) :=
  (k, v) :: m

/-- `Client.RegisterDomain` (src/forges.go): detect the forge type, store the
token, and register the adapter matching the detected type; a detection error
is wrapped; any other forge type is the "unsupported forge type" error. -/
def RegisterDomain (c : RegClient) (domain token : Str) (w : World) : Except Err RegClient :=
  match DetectForgeType domain w with
  | .error e => .error (.detectWrap domain e)
  | .ok ft =>
    let tokens' := insertA c.tokens domain token
    let baseURL := httpsL ++ domain
    match ft with
    | .github => .ok { forges := insertA c.forges domain (.githubWithBase baseURL token),
                       tokens := tokens' }
    | .gitlab => .ok { forges := insertA c.forges domain (.gitlabForge baseURL token),
                       tokens := tokens' }
    | .gitea => .ok { forges := insertA c.forges domain (.giteaForge baseURL token),
                      tokens := tokens' }
    | .forgejo => .ok { forges := insertA c.forges domain (.giteaForge baseURL token),
                        tokens := tokens' }
    | _ => .error (.unsupportedForge ft.str domain)

/- ### Concrete fixtures used by the filter claims -/

/-- Fixture: `{FullName: "org/active"}`. -/
def demoActive : Repository := { fullName := ("org/active").toList }

/-- Fixture: `{FullName: "org/archived", Archived: true}`. -/
def demoArchived : Repository := { fullName := ("org/archived").toList, archived := true }

/-- Fixture: `{FullName: "org/fork", Fork: true}`. -/
def demoFork : Repository := { fullName := ("org/fork").toList, fork := true }

/-- Fixture: `{FullName: "org/archived-fork", Archived: true, Fork: true}`. -/
def demoArchivedFork : Repository :=
  { fullName := ("org/archived-fork").toList, archived := true, fork := true }

/-- The four-element fixture list of `TestFilterRepos`. -/
def demoRepos : List Repository := [demoActive, demoArchived, demoFork, demoArchivedFork]

/-- Fixture: the recording mock forge of the routing tests, with fixed
results. -/
def mockForge : ForgeIface :=
  { fetchRepository := fun o r => .ok { fullName := o ++ '/' :: r }
    fetchTags := fun _ _ => .ok [{ name := ("v1.0.0").toList, commit := ("abc").toList }] }

/-- Fixture: a GitLab payload whose native fields are mutually inconsistent
(`path_with_namespace` does not equal `namespace.path + "/" + name`). -/
def glInconsistent : GLProject :=
  { pathWithNamespace := ("a/b").toList
    name := ("d").toList
    nspace := some { path := ("c").toList } }

/-- Fixture: a Gitea payload whose native fields are mutually consistent. -/
def giteaConsistent : GiteaRepoPayload :=
  { fullName := ("org/repo").toList
    ownerUserName := ("org").toList
    name := ("repo").toList }

end Forges

namespace Forges

/- ### Lemmas about the character-list primitives -/

lemma hasPref_append_self (l t : Str) : hasPref l (l ++ t) = true := by
  induction l with
  | nil => rfl
  | cons c cs ih => simp [hasPref, ih]

lemma mem_of_hasPref {p l : Str} (h : hasPref p l = true) : ∀ c ∈ p, c ∈ l := by
  induction p generalizing l with
  | nil => simp
  | cons a as ih =>
    cases l with
    | nil => simp [hasPref] at h
    | cons b bs =>
      simp only [hasPref, Bool.and_eq_true, beq_iff_eq] at h
      obtain ⟨rfl, hrest⟩ := h
      intro c hc
      rcases List.mem_cons.mp hc with rfl | hc
      · exact List.mem_cons_self _ _
      · exact List.mem_cons_of_mem _ (ih hrest c hc)

lemma gitAt_not_pref {l : Str} (h : ('@' : Char) ∉ l) : hasPref gitAtL l = false := by
  cases hh : hasPref gitAtL l with
  | false => rfl
  | true => exact absurd (mem_of_hasPref hh '@' (by decide)) h

lemma containsSub_schemeSep_eq_false {l : Str} (h : (':' : Char) ∉ l) :
    containsSub schemeSepL l = false := by
  induction l with
  | nil => rfl
  | cons c cs ih =>
    have hc : ((':' : Char) == c) = false := by
      rw [beq_eq_false_iff_ne]
      intro hcc
      exact h (by rw [hcc]; exact List.mem_cons_self _ _)
    have h1 : (':' : Char) ∉ cs := fun hm => h (List.mem_cons_of_mem _ hm)
    have hpref : hasPref schemeSepL (c :: cs) = false := by
      simp [hasPref, schemeSepL, hc]
    show (hasPref schemeSepL (c :: cs) || containsSub schemeSepL cs) = false
    rw [hpref, ih h1]
    rfl

lemma splitFirstSub_colon_none {t : Str} (h : (':' : Char) ∉ t) :
    splitFirstSub [':'] t = none := by
  induction t with
  | nil => rfl
  | cons c cs ih =>
    have hc : ((':' : Char) == c) = false := by
      rw [beq_eq_false_iff_ne]
      intro hcc
      exact h (by rw [hcc]; exact List.mem_cons_self _ _)
    have h1 : (':' : Char) ∉ cs := fun hm => h (List.mem_cons_of_mem _ hm)
    simp [splitFirstSub, hasPref, hc, ih h1]

lemma splitFirstSub_colon_append {d : Str} (p : Str) (hd : ∀ c ∈ d, c ≠ ':') :
    splitFirstSub [':'] (d ++ ':' :: p) = some (d, p) := by
  induction d with
  | nil => simp [splitFirstSub, hasPref]
  | cons c cs ih =>
    have hc : ((':' : Char) == c) = false := by
      rw [beq_eq_false_iff_ne]
      exact fun hcc => hd c (List.mem_cons_self _ _) hcc.symm
    have ih' := ih (fun x hx => hd x (List.mem_cons_of_mem _ hx))
    simp [splitFirstSub, hasPref, hc, ih']

lemma dropPref_append (pat t : Str) : dropPref pat (pat ++ t) = some t := by
  induction pat with
  | nil => rfl
  | cons c cs ih => simp [dropPref, ih]

lemma dropPref_slash_sandwich {pat : Str} (hp : ∀ c ∈ pat, c ≠ '/') (a b : Str) :
    (dropPref pat (a ++ '/' :: b)).isSome = (dropPref pat a).isSome := by
  induction pat generalizing a with
  | nil => simp [dropPref]
  | cons p ps ih =>
    cases a with
    | nil =>
      have hps : (p == '/') = false := by
        rw [beq_eq_false_iff_ne]; exact hp p (List.mem_cons_self _ _)
      simp [dropPref, hps]
    | cons x xs =>
      by_cases hpx : p = x
      · have ih' := ih (fun c hc => hp c (List.mem_cons_of_mem _ hc)) xs
        simp [dropPref, hpx, ih']
      · have hb : (p == x) = false := by rw [beq_eq_false_iff_ne]; exact hpx
        simp [dropPref, hb]

lemma endsWithL_append_slash {suf : Str} (hs : ∀ c ∈ suf, c ≠ '/') (l e : Str) :
    endsWithL suf (l ++ '/' :: e) = endsWithL suf e := by
  unfold endsWithL
  have hrev : (l ++ '/' :: e).reverse = e.reverse ++ '/' :: l.reverse := by
    simp [List.reverse_append]
  rw [hrev]
  exact dropPref_slash_sandwich (fun c hc => hs c (List.mem_reverse.mp hc)) _ _

lemma trimSuffixL_of_endsWith_false {suf l : Str} (h : endsWithL suf l = false) :
    trimSuffixL suf l = l := by
  unfold trimSuffixL
  unfold endsWithL at h
  cases hd : dropPref suf.reverse l.reverse with
  | none => simp
  | some r => rw [hd] at h; simp at h

lemma trimSuffixL_append (suf x : Str) : trimSuffixL suf (x ++ suf) = x := by
  unfold trimSuffixL
  rw [List.reverse_append, dropPref_append]
  simp

lemma dropWhile_cons_of_false {p : Char → Bool} {c : Char} (h : p c = false) (l : Str) :
    (c :: l).dropWhile p = c :: l := by
  simp [List.dropWhile_cons, h]

lemma trimSpaceL_eq_self {l : Str} (h : ∀ c ∈ l, c.isWhitespace = false) :
    trimSpaceL l = l := by
  unfold trimSpaceL
  cases l with
  | nil => rfl
  | cons c cs =>
    rw [dropWhile_cons_of_false (h c (List.mem_cons_self _ _))]
    cases hrev : (c :: cs).reverse with
    | nil => simp at hrev
    | cons d ds =>
      have hd : d ∈ (c :: cs) := List.mem_reverse.mp (by rw [hrev]; exact List.mem_cons_self _ _)
      rw [dropWhile_cons_of_false (h d hd), ← hrev, List.reverse_reverse]

lemma ws_false_append {a b : Str} (ha : ∀ c ∈ a, c.isWhitespace = false)
    (hb : ∀ c ∈ b, c.isWhitespace = false) : ∀ c ∈ a ++ b, c.isWhitespace = false := by
  intro c hc
  rcases List.mem_append.mp hc with h | h
  · exact ha c h
  · exact hb c h

lemma ws_false_cons {x : Char} {b : Str} (hx : x.isWhitespace = false)
    (hb : ∀ c ∈ b, c.isWhitespace = false) : ∀ c ∈ x :: b, c.isWhitespace = false := by
  intro c hc
  rcases List.mem_cons.mp hc with rfl | h
  · exact hx
  · exact hb c h

lemma hasCharL_eq_false {c : Char} {l : Str} (h : c ∉ l) : hasCharL c l = false := by
  cases hh : hasCharL c l with
  | false => rfl
  | true =>
    unfold hasCharL at hh
    obtain ⟨x, hx, hxc⟩ := List.any_eq_true.mp hh
    rw [beq_iff_eq] at hxc
    exact absurd (hxc ▸ hx) h

lemma dropUserinfo_eq_self {a : Str} (h : ('@' : Char) ∉ a) : dropUserinfo a = a := by
  unfold dropUserinfo
  rw [hasCharL_eq_false h]
  simp

lemma hostPortSplitOK_no_colon {a : Str} (h : (':' : Char) ∉ a) : hostPortSplitOK a = true := by
  unfold hostPortSplitOK
  rw [hasCharL_eq_false h]
  simp

lemma hostnameOf_no_colon {a : Str} (h : (':' : Char) ∉ a) : hostnameOf a = a := by
  unfold hostnameOf
  rw [hasCharL_eq_false h]
  simp

lemma takeWhile_append_cons {p : Char → Bool} {l : Str} (h : ∀ c ∈ l, p c = true)
    {x : Char} (hx : p x = false) (t : Str) :
    ((l ++ x :: t).takeWhile p) = l := by
  induction l with
  | nil => simp [List.takeWhile_cons, hx]
  | cons c cs ih =>
    have h1 := h c (List.mem_cons_self _ _)
    have ih' := ih (fun d hd => h d (List.mem_cons_of_mem _ hd))
    simp [List.takeWhile_cons, h1, ih']

lemma dropWhile_append_cons {p : Char → Bool} {l : Str} (h : ∀ c ∈ l, p c = true)
    {x : Char} (hx : p x = false) (t : Str) :
    ((l ++ x :: t).dropWhile p) = x :: t := by
  induction l with
  | nil => simp [List.dropWhile_cons, hx]
  | cons c cs ih =>
    have h1 := h c (List.mem_cons_self _ _)
    have ih' := ih (fun d hd => h d (List.mem_cons_of_mem _ hd))
    simp [List.dropWhile_cons, h1, ih']

lemma splitOnChar_append_seg {o : Str} (ho : ∀ c ∈ o, (c == '/') = false) (t : Str) :
    splitOnChar '/' (o ++ '/' :: t) = o :: splitOnChar '/' t := by
  induction o with
  | nil => simp [splitOnChar]
  | cons c cs ih =>
    have hc := ho c (List.mem_cons_self _ _)
    have ih' := ih (fun d hd => ho d (List.mem_cons_of_mem _ hd))
    simp [splitOnChar, hc, ih']

lemma splitOnChar_no_sep {r : Str} (hr : ∀ c ∈ r, (c == '/') = false) :
    splitOnChar '/' r = [r] := by
  induction r with
  | nil => rfl
  | cons c cs ih =>
    have hc := hr c (List.mem_cons_self _ _)
    have ih' := ih (fun d hd => hr d (List.mem_cons_of_mem _ hd))
    simp [splitOnChar, hc, ih']

/- ### Side conditions on URL components -/

/-- A non-empty component with no slash (the shape of owner and repo
segments and of anything preceding the path). -/
def NoSlash (l : Str) : Prop := l ≠ [] ∧ ∀ c ∈ l, c ≠ '/'

instance (l : Str) : Decidable (NoSlash l) := by unfold NoSlash; infer_instance

lemma NoSlash.beq {l : Str} (h : NoSlash l) : ∀ c ∈ l, (c == '/') = false := by
  intro c hc
  rw [beq_eq_false_iff_ne]
  exact h.2 c hc

lemma NoSlash.rev {l : Str} (h : NoSlash l) :
    ∃ d t, l.reverse = d :: t ∧ (d == '/') = false := by
  cases hrev : l.reverse with
  | nil => exact absurd (List.reverse_eq_nil_iff.mp hrev) h.1
  | cons d t =>
    refine ⟨d, t, rfl, ?_⟩
    have hd : d ∈ l := List.mem_reverse.mp (by rw [hrev]; exact List.mem_cons_self _ _)
    rw [beq_eq_false_iff_ne]
    exact h.2 d hd

lemma reverse_append_slash (o r : Str) :
    (o ++ '/' :: r).reverse = r.reverse ++ '/' :: o.reverse := by
  simp [List.reverse_append]

lemma dropWhile_slash_cons {c : Char} (h : (c == '/') = false) (l : Str) :
    (c :: l).dropWhile (fun x => x == '/') = c :: l := by
  simp [List.dropWhile_cons, h]

lemma dropWhile_slash_double {y : Str}
    (h1 : y.dropWhile (fun c => c == '/') = y) :
    ('/' :: y).dropWhile (fun c => c == '/') = y := by
  rw [List.dropWhile_cons]
  simp [h1]

lemma trimSlashesL_of_self {y : Str} (h1 : y.dropWhile (fun c => c == '/') = y)
    (h2 : y.reverse.dropWhile (fun c => c == '/') = y.reverse) :
    trimSlashesL y = y := by
  unfold trimSlashesL
  rw [h1, h2, List.reverse_reverse]

lemma trimSlashesL_slash_of_self {y : Str} (h1 : y.dropWhile (fun c => c == '/') = y)
    (h2 : y.reverse.dropWhile (fun c => c == '/') = y.reverse) :
    trimSlashesL ('/' :: y) = y := by
  unfold trimSlashesL
  rw [dropWhile_slash_double h1, h2, List.reverse_reverse]

lemma dotGitL_no_slash : ∀ c ∈ dotGitL, c ≠ '/' := by decide

/- ### Evaluation lemmas for `splitOwnerRepo` -/

lemma splitOwnerRepo_main {dom o r : Str} (ho : NoSlash o) (hr : NoSlash r)
    (hg : endsWithL dotGitL r = false) :
    splitOwnerRepo dom (o ++ '/' :: r) = .ok (dom, o, r)
    ∧ splitOwnerRepo dom ('/' :: (o ++ '/' :: r)) = .ok (dom, o, r) := by
  obtain ⟨oc, os, rfl⟩ : ∃ oc os, o = oc :: os := by
    cases o with
    | nil => exact absurd rfl ho.1
    | cons a b => exact ⟨a, b, rfl⟩
  obtain ⟨d, t, hdrev, hd⟩ := hr.rev
  have hoc : (oc == '/') = false := ho.beq oc (List.mem_cons_self _ _)
  -- the trailing `.git` test fails
  have hg1 : endsWithL dotGitL ((oc :: os) ++ '/' :: r) = false := by
    rw [endsWithL_append_slash dotGitL_no_slash]; exact hg
  have hg2 : endsWithL dotGitL ('/' :: ((oc :: os) ++ '/' :: r)) = false := by
    have hsh : '/' :: ((oc :: os) ++ '/' :: r) = ('/' :: oc :: os) ++ '/' :: r := by
      simp
    rw [hsh, endsWithL_append_slash dotGitL_no_slash]; exact hg
  -- no leading or trailing slash to trim
  have hrv : ((oc :: os) ++ '/' :: r).reverse = d :: (t ++ '/' :: (oc :: os).reverse) := by
    rw [reverse_append_slash, hdrev]
    simp
  have h1 : ((oc :: os) ++ '/' :: r).dropWhile (fun c => c == '/') = (oc :: os) ++ '/' :: r := by
    rw [List.cons_append]
    exact dropWhile_slash_cons hoc _
  have h2 : ((oc :: os) ++ '/' :: r).reverse.dropWhile (fun c => c == '/') =
      ((oc :: os) ++ '/' :: r).reverse := by
    rw [hrv]
    exact dropWhile_slash_cons hd _
  have hsplit : splitOnChar '/' ((oc :: os) ++ '/' :: r) = (oc :: os) :: [r] := by
    rw [splitOnChar_append_seg ho.beq, splitOnChar_no_sep hr.beq]
  constructor
  · simp only [splitOwnerRepo]
    rw [trimSuffixL_of_endsWith_false hg1, trimSlashesL_of_self h1 h2, hsplit]
  · simp only [splitOwnerRepo]
    rw [trimSuffixL_of_endsWith_false hg2, trimSlashesL_slash_of_self h1 h2, hsplit]

lemma splitOwnerRepo_git {dom o r : Str} (ho : NoSlash o) (hr : NoSlash r) :
    splitOwnerRepo dom ((o ++ '/' :: r) ++ dotGitL) = .ok (dom, o, r)
    ∧ splitOwnerRepo dom ('/' :: ((o ++ '/' :: r) ++ dotGitL)) = .ok (dom, o, r) := by
  obtain ⟨oc, os, rfl⟩ : ∃ oc os, o = oc :: os := by
    cases o with
    | nil => exact absurd rfl ho.1
    | cons a b => exact ⟨a, b, rfl⟩
  obtain ⟨d, t, hdrev, hd⟩ := hr.rev
  have hoc : (oc == '/') = false := ho.beq oc (List.mem_cons_self _ _)
  have hsuf1 : trimSuffixL dotGitL (((oc :: os) ++ '/' :: r) ++ dotGitL) =
      (oc :: os) ++ '/' :: r := trimSuffixL_append _ _
  have hsuf2 : trimSuffixL dotGitL ('/' :: (((oc :: os) ++ '/' :: r) ++ dotGitL)) =
      '/' :: ((oc :: os) ++ '/' :: r) := by
    have hsh : '/' :: (((oc :: os) ++ '/' :: r) ++ dotGitL) =
        ('/' :: ((oc :: os) ++ '/' :: r)) ++ dotGitL := by simp
    rw [hsh]
    exact trimSuffixL_append _ _
  have hrv : ((oc :: os) ++ '/' :: r).reverse = d :: (t ++ '/' :: (oc :: os).reverse) := by
    rw [reverse_append_slash, hdrev]
    simp
  have h1 : ((oc :: os) ++ '/' :: r).dropWhile (fun c => c == '/') = (oc :: os) ++ '/' :: r := by
    rw [List.cons_append]
    exact dropWhile_slash_cons hoc _
  have h2 : ((oc :: os) ++ '/' :: r).reverse.dropWhile (fun c => c == '/') =
      ((oc :: os) ++ '/' :: r).reverse := by
    rw [hrv]
    exact dropWhile_slash_cons hd _
  have hsplit : splitOnChar '/' ((oc :: os) ++ '/' :: r) = (oc :: os) :: [r] := by
    rw [splitOnChar_append_seg ho.beq, splitOnChar_no_sep hr.beq]
  constructor
  · simp only [splitOwnerRepo]
    rw [hsuf1, trimSlashesL_of_self h1 h2, hsplit]
  · simp only [splitOwnerRepo]
    rw [hsuf2, trimSlashesL_slash_of_self h1 h2, hsplit]

lemma splitOwnerRepo_extra {dom o r e : Str} (ho : NoSlash o) (hr : NoSlash r)
    (he : e ≠ []) (heLast : ∀ d t, e.reverse = d :: t → d ≠ '/')
    (hge : endsWithL dotGitL e = false) :
    splitOwnerRepo dom ('/' :: (o ++ '/' :: (r ++ '/' :: e))) = .ok (dom, o, r) := by
  obtain ⟨oc, os, rfl⟩ : ∃ oc os, o = oc :: os := by
    cases o with
    | nil => exact absurd rfl ho.1
    | cons a b => exact ⟨a, b, rfl⟩
  obtain ⟨d, t, hdrev⟩ : ∃ d t, e.reverse = d :: t := by
    cases hrev : e.reverse with
    | nil => exact absurd (List.reverse_eq_nil_iff.mp hrev) he
    | cons a b => exact ⟨a, b, rfl⟩
  have hd : (d == '/') = false := by
    rw [beq_eq_false_iff_ne]
    exact heLast d t hdrev
  have hoc : (oc == '/') = false := ho.beq oc (List.mem_cons_self _ _)
  set y := (oc :: os) ++ '/' :: (r ++ '/' :: e) with hy
  have hg2 : endsWithL dotGitL ('/' :: y) = false := by
    have hsh : '/' :: y = (('/' :: oc :: os) ++ '/' :: r) ++ '/' :: e := by
      rw [hy]; simp
    rw [hsh, endsWithL_append_slash dotGitL_no_slash]; exact hge
  have hrv : y.reverse = d :: (t ++ '/' :: r.reverse ++ '/' :: (oc :: os).reverse) := by
    rw [hy, reverse_append_slash, reverse_append_slash, hdrev]
    simp
  have h1 : y.dropWhile (fun c => c == '/') = y := by
    rw [hy, List.cons_append]
    exact dropWhile_slash_cons hoc _
  have h2 : y.reverse.dropWhile (fun c => c == '/') = y.reverse := by
    rw [hrv]
    exact dropWhile_slash_cons hd _
  have hsplit : splitOnChar '/' y = (oc :: os) :: r :: splitOnChar '/' e := by
    rw [hy, splitOnChar_append_seg ho.beq, splitOnChar_append_seg hr.beq]
  simp only [splitOwnerRepo]
  rw [trimSuffixL_of_endsWith_false hg2, trimSlashesL_slash_of_self h1 h2, hsplit]

lemma splitOwnerRepo_single {dom o : Str} (ho : NoSlash o)
    (hg : endsWithL dotGitL o = false) :
    splitOwnerRepo dom ('/' :: o) = .error .pathTooShort := by
  obtain ⟨oc, os, rfl⟩ : ∃ oc os, o = oc :: os := by
    cases o with
    | nil => exact absurd rfl ho.1
    | cons a b => exact ⟨a, b, rfl⟩
  obtain ⟨d, t, hdrev, hd⟩ := ho.rev
  have hoc : (oc == '/') = false := ho.beq oc (List.mem_cons_self _ _)
  have hg2 : endsWithL dotGitL ('/' :: (oc :: os)) = false := by
    have hsh : '/' :: (oc :: os) = ([] : Str) ++ '/' :: (oc :: os) := by simp
    rw [hsh, endsWithL_append_slash dotGitL_no_slash]; exact hg
  have h1 : (oc :: os).dropWhile (fun c => c == '/') = oc :: os :=
    dropWhile_slash_cons hoc _
  have h2 : (oc :: os).reverse.dropWhile (fun c => c == '/') = (oc :: os).reverse := by
    rw [hdrev]
    exact dropWhile_slash_cons hd _
  simp only [splitOwnerRepo]
  rw [trimSuffixL_of_endsWith_false hg2, trimSlashesL_slash_of_self h1 h2,
    splitOnChar_no_sep ho.beq]

/- ### Evaluation lemmas for `goParseURL` and `ParseRepoURL` -/

lemma isEmpty_https_append (x : Str) : (httpsL ++ x).isEmpty = false := rfl

lemma hasPref_gitAt_https (x : Str) : hasPref gitAtL (httpsL ++ x) = false := rfl

lemma containsSub_https (x : Str) : containsSub schemeSepL (httpsL ++ x) = true := rfl

lemma splitFirstSub_https (x : Str) :
    splitFirstSub schemeSepL (httpsL ++ x) = some (httpsSchemeL, x) := rfl

lemma isEmpty_gitAt_append (x : Str) : (gitAtL ++ x).isEmpty = false := rfl

lemma goParseURL_https {host : Str} (rest : Str)
    (h1 : ∀ c ∈ host, c ≠ '/') (h2 : ('@' : Char) ∉ host) (h3 : (':' : Char) ∉ host) :
    goParseURL (httpsL ++ (host ++ '/' :: rest)) = some (host, '/' :: rest) := by
  have hb : ∀ c ∈ host, ((c != '/') : Bool) = true := by
    intro c hc
    simp [bne_iff_ne]
    exact h1 c hc
  have hx : (('/' : Char) != '/') = false := by decide
  have hv : validSchemeL httpsSchemeL = true := by decide
  simp only [goParseURL, splitFirstSub_https, hv, if_true]
  rw [takeWhile_append_cons hb hx, dropWhile_append_cons hb hx, dropUserinfo_eq_self h2,
    hostPortSplitOK_no_colon h3, hostnameOf_no_colon h3]
  simp

/-- The §4.1 well-formedness condition on host, owner and repo components:
non-empty, and free of slashes, colons, at-signs and whitespace. -/
def SegOK (l : Str) : Prop :=
  l ≠ [] ∧ ∀ c ∈ l, c ≠ '/' ∧ c ≠ ':' ∧ c ≠ '@' ∧ c.isWhitespace = false

instance (l : Str) : Decidable (SegOK l) := by unfold SegOK; infer_instance

lemma SegOK.noSlash {l : Str} (h : SegOK l) : NoSlash l :=
  ⟨h.1, fun c hc => (h.2 c hc).1⟩

lemma SegOK.noColon {l : Str} (h : SegOK l) : (':' : Char) ∉ l :=
  fun hm => (h.2 _ hm).2.1 rfl

lemma SegOK.noAt {l : Str} (h : SegOK l) : ('@' : Char) ∉ l :=
  fun hm => (h.2 _ hm).2.2.1 rfl

lemma SegOK.noWS {l : Str} (h : SegOK l) : ∀ c ∈ l, c.isWhitespace = false :=
  fun c hc => (h.2 c hc).2.2.2

lemma ParseRepoURL_https {host : Str} (rest : Str) (hh : SegOK host)
    (hrestWS : ∀ c ∈ rest, c.isWhitespace = false) :
    ParseRepoURL (httpsL ++ (host ++ '/' :: rest)) = splitOwnerRepo host ('/' :: rest) := by
  have hws : ∀ c ∈ httpsL ++ (host ++ '/' :: rest), c.isWhitespace = false :=
    ws_false_append (by decide) (ws_false_append hh.noWS (ws_false_cons (by decide) hrestWS))
  simp only [ParseRepoURL, trimSpaceL_eq_self hws, isEmpty_https_append, hasPref_gitAt_https,
    containsSub_https, Bool.false_eq_true, if_false, if_true]
  rw [goParseURL_https rest (fun c hc => (hh.2 c hc).1) hh.noAt hh.noColon]

lemma ParseRepoURL_schemeless {host : Str} (rest : Str) (hh : SegOK host)
    (hrWS : ∀ c ∈ rest, c.isWhitespace = false)
    (hrColon : (':' : Char) ∉ rest) (hrAt : ('@' : Char) ∉ rest) :
    ParseRepoURL (host ++ '/' :: rest) = splitOwnerRepo host ('/' :: rest) := by
  have hws : ∀ c ∈ host ++ '/' :: rest, c.isWhitespace = false :=
    ws_false_append hh.noWS (ws_false_cons (by decide) hrWS)
  have hcolon : (':' : Char) ∉ host ++ '/' :: rest := by
    intro hm
    rcases List.mem_append.mp hm with h | h
    · exact hh.noColon h
    · rcases List.mem_cons.mp h with h | h
      · exact absurd h (by decide)
      · exact hrColon h
  have hat : ('@' : Char) ∉ host ++ '/' :: rest := by
    intro hm
    rcases List.mem_append.mp hm with h | h
    · exact hh.noAt h
    · rcases List.mem_cons.mp h with h | h
      · exact absurd h (by decide)
      · exact hrAt h
  obtain ⟨hc, hs, rfl⟩ : ∃ hc hs, host = hc :: hs := by
    cases host with
    | nil => exact absurd rfl hh.1
    | cons a b => exact ⟨a, b, rfl⟩
  have hne : ((hc :: hs) ++ '/' :: rest).isEmpty = false := by
    rw [List.cons_append]
    rfl
  have hg := goParseURL_https rest (fun c hcm => (hh.2 c hcm).1) hh.noAt hh.noColon
  simp only [ParseRepoURL, trimSpaceL_eq_self hws, hne, gitAt_not_pref hat,
    containsSub_schemeSep_eq_false hcolon, Bool.false_eq_true, if_false, if_true]
  rw [hg]

lemma gitAt_ws_false : ∀ c ∈ gitAtL, c.isWhitespace = false := by decide

lemma ParseRepoURL_ssh {d : Str} (p : Str) (hdC : ∀ c ∈ d, c ≠ ':')
    (hdW : ∀ c ∈ d, c.isWhitespace = false) (hpW : ∀ c ∈ p, c.isWhitespace = false) :
    ParseRepoURL (gitAtL ++ (d ++ ':' :: p)) = splitOwnerRepo d p := by
  have hws : ∀ c ∈ gitAtL ++ (d ++ ':' :: p), c.isWhitespace = false :=
    ws_false_append gitAt_ws_false (ws_false_append hdW (ws_false_cons (by decide) hpW))
  simp only [ParseRepoURL, trimSpaceL_eq_self hws, isEmpty_gitAt_append, hasPref_append_self,
    List.drop_left, splitFirstSub_colon_append p hdC]
  simp

lemma ParseRepoURL_ssh_nocolon {t : Str} (htC : (':' : Char) ∉ t)
    (htW : ∀ c ∈ t, c.isWhitespace = false) :
    ParseRepoURL (gitAtL ++ t) = .error .sshMissingColon := by
  have hws : ∀ c ∈ gitAtL ++ t, c.isWhitespace = false :=
    ws_false_append gitAt_ws_false htW
  simp only [ParseRepoURL, trimSpaceL_eq_self hws, isEmpty_gitAt_append, hasPref_append_self,
    List.drop_left, splitFirstSub_colon_none htC]
  simp

/- ### The non-`git@` side of SSH recognition

`ParseRepoURL` tests the literal prefix `"git@"`; an input of SSH shape
`u@host:owner/repo` with any other user part `u` is not SSH-recognized and
falls into the URL branch, where Go's `url.Parse` rejects the non-numeric
"port" after the colon of the authority. -/

lemma hasCharL_eq_true_of_mem {c : Char} {l : Str} (h : c ∈ l) : hasCharL c l = true := by
  unfold hasCharL
  exact List.any_eq_true.mpr ⟨c, h, beq_self_eq_true c⟩

lemma hasPref_gitAt_user {u : Str} (hu : ('@' : Char) ∉ u) (hne : u ≠ ['g', 'i', 't'])
    (x : Str) : hasPref gitAtL (u ++ '@' :: x) = false := by
  rcases u with _ | ⟨c1, _ | ⟨c2, _ | ⟨c3, _ | ⟨c4, u4⟩⟩⟩⟩
  · rfl
  · have h2 : (('i' : Char) == '@') = false := by decide
    simp [hasPref, gitAtL, h2]
  · have h3 : (('t' : Char) == '@') = false := by decide
    simp [hasPref, gitAtL, h3]
  · by_cases h1 : c1 = 'g'
    · by_cases h2 : c2 = 'i'
      · by_cases h3 : c3 = 't'
        · exact absurd (by rw [h1, h2, h3]) hne
        · have hb : (('t' : Char) == c3) = false :=
            beq_eq_false_iff_ne.mpr (fun he => h3 he.symm)
          simp [hasPref, gitAtL, hb]
      · have hb : (('i' : Char) == c2) = false :=
          beq_eq_false_iff_ne.mpr (fun he => h2 he.symm)
        simp [hasPref, gitAtL, hb]
    · have hb : (('g' : Char) == c1) = false :=
        beq_eq_false_iff_ne.mpr (fun he => h1 he.symm)
      simp [hasPref, gitAtL, hb]
  · have hc4 : c4 ≠ '@' := fun he => hu (he ▸ (by simp : c4 ∈ c1 :: c2 :: c3 :: c4 :: u4))
    have hb : (('@' : Char) == c4) = false := beq_eq_false_iff_ne.mpr (fun he => hc4 he.symm)
    simp [hasPref, gitAtL, hb]

lemma containsSub_schemeSep_single_colon {a : Str} {bh : Char} {bt : Str}
    (ha : (':' : Char) ∉ a) (hb : (':' : Char) ∉ bh :: bt) (hbh : bh ≠ '/') :
    containsSub schemeSepL (a ++ ':' :: bh :: bt) = false := by
  induction a with
  | nil =>
    have h1 : hasPref schemeSepL (':' :: bh :: bt) = false := by
      have hbb : (('/' : Char) == bh) = false := beq_eq_false_iff_ne.mpr (fun he => hbh he.symm)
      simp [hasPref, schemeSepL, hbb]
    show (hasPref schemeSepL (':' :: bh :: bt) || containsSub schemeSepL (bh :: bt)) = false
    rw [h1, containsSub_schemeSep_eq_false hb]
    rfl
  | cons c cs ih =>
    have hc : ((':' : Char) == c) = false := by
      rw [beq_eq_false_iff_ne]
      intro hcc
      exact ha (by rw [hcc]; exact List.mem_cons_self _ _)
    have ih' := ih (fun hm => ha (List.mem_cons_of_mem _ hm))
    have h1 : hasPref schemeSepL (c :: (cs ++ ':' :: bh :: bt)) = false := by
      simp [hasPref, schemeSepL, hc]
    show (hasPref schemeSepL (c :: (cs ++ ':' :: bh :: bt)) ||
        containsSub schemeSepL (cs ++ ':' :: bh :: bt)) = false
    rw [h1, ih']
    rfl

lemma goParseURL_bad_port {u h2 o2 : Str} (r2 : Str)
    (hu : ∀ c ∈ u, c ≠ '/' ∧ c ≠ '@')
    (hh2 : ∀ c ∈ h2, c ≠ '/' ∧ c ≠ '@' ∧ c ≠ ':')
    (ho2 : ∀ c ∈ o2, c ≠ '/' ∧ c ≠ '@' ∧ c ≠ ':')
    (hdig : ∃ c ∈ o2, c.isDigit = false) :
    goParseURL (httpsL ++ ((u ++ '@' :: (h2 ++ ':' :: o2)) ++ '/' :: r2)) = none := by
  have hv : validSchemeL httpsSchemeL = true := by decide
  have hbA : ∀ c ∈ u ++ '@' :: (h2 ++ ':' :: o2), ((c != '/') : Bool) = true := by
    intro c hc
    rw [bne_iff_ne]
    rcases List.mem_append.mp hc with h | h
    · exact (hu c h).1
    · rcases List.mem_cons.mp h with rfl | h
      · decide
      · rcases List.mem_append.mp h with h | h
        · exact (hh2 c h).1
        · rcases List.mem_cons.mp h with rfl | h
          · decide
          · exact (ho2 c h).1
  have hx : (('/' : Char) != '/') = false := by decide
  have hat : hasCharL '@' (u ++ '@' :: (h2 ++ ':' :: o2)) = true :=
    hasCharL_eq_true_of_mem (List.mem_append.mpr (.inr (List.mem_cons_self _ _)))
  have hrevA : (u ++ '@' :: (h2 ++ ':' :: o2)).reverse =
      (h2 ++ ':' :: o2).reverse ++ '@' :: u.reverse := by
    simp [List.reverse_append]
  have hbRev : ∀ c ∈ (h2 ++ ':' :: o2).reverse, ((c != '@') : Bool) = true := by
    intro c hc
    rw [bne_iff_ne]
    rcases List.mem_append.mp (List.mem_reverse.mp hc) with h | h
    · exact (hh2 c h).2.1
    · rcases List.mem_cons.mp h with rfl | h
      · decide
      · exact (ho2 c h).2.1
  have hxa : (('@' : Char) != '@') = false := by decide
  have hhost : dropUserinfo (u ++ '@' :: (h2 ++ ':' :: o2)) = h2 ++ ':' :: o2 := by
    unfold dropUserinfo
    rw [if_pos hat, hrevA, takeWhile_append_cons hbRev hxa, List.reverse_reverse]
  have hrevH : (h2 ++ ':' :: o2).reverse = o2.reverse ++ ':' :: h2.reverse := by
    simp [List.reverse_append]
  have hcol : hasCharL ':' (h2 ++ ':' :: o2) = true :=
    hasCharL_eq_true_of_mem (List.mem_append.mpr (.inr (List.mem_cons_self _ _)))
  have hbRevO : ∀ c ∈ o2.reverse, ((c != ':') : Bool) = true := by
    intro c hc
    rw [bne_iff_ne]
    exact (ho2 c (List.mem_reverse.mp hc)).2.2
  have hxc : ((':' : Char) != ':') = false := by decide
  have hall : (o2.reverse.all (fun c => c.isDigit)) = false := by
    obtain ⟨c, hc, hcd⟩ := hdig
    cases hv2 : o2.reverse.all (fun c => c.isDigit) with
    | false => rfl
    | true =>
      have hmem := List.all_eq_true.mp hv2 c (List.mem_reverse.mpr hc)
      simp at hmem
      rw [hcd] at hmem
      cases hmem
  have hport : hostPortSplitOK (h2 ++ ':' :: o2) = false := by
    unfold hostPortSplitOK
    rw [if_pos hcol, hrevH, takeWhile_append_cons hbRevO hxc]
    exact hall
  simp only [goParseURL, splitFirstSub_https, hv, if_true]
  rw [takeWhile_append_cons hbA hx, hhost, hport]
  simp

lemma ParseRepoURL_ssh_other_user {v hst ow : Str} (rp : Str)
    (hvAt : ('@' : Char) ∉ v) (hvC : (':' : Char) ∉ v)
    (hvS : ∀ c ∈ v, c ≠ '/') (hvW : ∀ c ∈ v, c.isWhitespace = false)
    (hne : v ≠ ['g', 'i', 't'])
    (hhost : SegOK hst) (how : SegOK ow) (hdig : ∃ c ∈ ow, c.isDigit = false)
    (hrW : ∀ c ∈ rp, c.isWhitespace = false) (hrC : (':' : Char) ∉ rp) :
    ParseRepoURL (v ++ '@' :: (hst ++ ':' :: (ow ++ '/' :: rp))) = .error .invalidURL := by
  have hws : ∀ c ∈ v ++ '@' :: (hst ++ ':' :: (ow ++ '/' :: rp)), c.isWhitespace = false :=
    ws_false_append hvW (ws_false_cons (by decide) (ws_false_append hhost.noWS
      (ws_false_cons (by decide) (ws_false_append how.noWS
        (ws_false_cons (by decide) hrW)))))
  have hul : (v ++ '@' :: (hst ++ ':' :: (ow ++ '/' :: rp))).isEmpty = false := by
    cases v <;> rfl
  obtain ⟨oc, os, rfl⟩ : ∃ oc os, ow = oc :: os := by
    cases ow with
    | nil => exact absurd rfl how.1
    | cons a b => exact ⟨a, b, rfl⟩
  have hcont : containsSub schemeSepL
      (v ++ '@' :: (hst ++ ':' :: ((oc :: os) ++ '/' :: rp))) = false := by
    have haC : (':' : Char) ∉ v ++ '@' :: hst := by
      intro hm
      rcases List.mem_append.mp hm with h | h
      · exact hvC h
      · rcases List.mem_cons.mp h with h | h
        · exact absurd h (by decide)
        · exact hhost.noColon h
    have hbC : (':' : Char) ∉ oc :: (os ++ '/' :: rp) := by
      intro hm
      rcases List.mem_cons.mp hm with h | h
      · exact how.noColon (h ▸ List.mem_cons_self _ _)
      · rcases List.mem_append.mp h with h | h
        · exact how.noColon (List.mem_cons_of_mem _ h)
        · rcases List.mem_cons.mp h with h | h
          · exact absurd h (by decide)
          · exact hrC h
    have hsh : v ++ '@' :: (hst ++ ':' :: ((oc :: os) ++ '/' :: rp)) =
        (v ++ '@' :: hst) ++ ':' :: oc :: (os ++ '/' :: rp) := by
      simp
    rw [hsh]
    exact containsSub_schemeSep_single_colon haC hbC
      (how.2 oc (List.mem_cons_self _ _)).1
  have hv' : ∀ c ∈ v, c ≠ '/' ∧ c ≠ '@' :=
    fun c hc => ⟨hvS c hc, fun he => hvAt (he ▸ hc)⟩
  have hh' : ∀ c ∈ hst, c ≠ '/' ∧ c ≠ '@' ∧ c ≠ ':' :=
    fun c hc => ⟨(hhost.2 c hc).1, (hhost.2 c hc).2.2.1, (hhost.2 c hc).2.1⟩
  have ho' : ∀ c ∈ oc :: os, c ≠ '/' ∧ c ≠ '@' ∧ c ≠ ':' :=
    fun c hc => ⟨(how.2 c hc).1, (how.2 c hc).2.2.1, (how.2 c hc).2.1⟩
  have hgp := goParseURL_bad_port rp hv' hh' ho' hdig
  rw [show (v ++ '@' :: (hst ++ ':' :: (oc :: os))) ++ '/' :: rp =
      v ++ '@' :: (hst ++ ':' :: ((oc :: os) ++ '/' :: rp)) from by simp] at hgp
  simp only [ParseRepoURL, trimSpaceL_eq_self hws, hul,
    hasPref_gitAt_user hvAt hne, hcont, Bool.false_eq_true, if_false]
  rw [hgp]

end Forges

section ParseSanity

open Forges

example : ParseRepoURL ("https://github.com/octocat/hello-world").toList =
    .ok (("github.com").toList, ("octocat").toList, ("hello-world").toList) := by decide

example : ParseRepoURL ("https://github.com/octocat/hello-world.git").toList =
    .ok (("github.com").toList, ("octocat").toList, ("hello-world").toList) := by decide

example : ParseRepoURL ("https://gitlab.com/group/project/tree/main").toList =
    .ok (("gitlab.com").toList, ("group").toList, ("project").toList) := by decide

example : ParseRepoURL ("github.com/user/repo").toList =
    .ok (("github.com").toList, ("user").toList, ("repo").toList) := by decide

example : ParseRepoURL ("git@github.com:user/repo.git").toList =
    .ok (("github.com").toList, ("user").toList, ("repo").toList) := by decide

example : ParseRepoURL ("").toList = .error .emptyURL := by decide

example : ParseRepoURL ("https://github.com/just-owner").toList = .error .pathTooShort := by
  decide

example : ParseRepoURL ("git@github.com").toList = .error .sshMissingColon := by decide

example : ParseRepoURL ("alice@github.com:owner/repo").toList = .error .invalidURL := by decide

end ParseSanity

namespace Forges

/- ### Claim C1 -/

/-- C1 counterexample: by the claim, `user@gitlab.com:group/project.git` is a
well-formed accepted SSH-style reference (`user@host:owner/repo[.git]`) and
should parse to `("gitlab.com", "group", "project")`; `ParseRepoURL` instead
rejects it, because the SSH branch fires only on the literal `git@` prefix
and the URL branch then fails on the non-numeric port `group`. -/
theorem C1_counterexample :
    ParseRepoURL ("user@gitlab.com:group/project.git").toList = .error .invalidURL
    ∧ ParseRepoURL ("user@gitlab.com:group/project.git").toList ≠
        .ok (("gitlab.com").toList, ("group").toList, ("project").toList) :=
  ⟨by decide, by decide⟩

/-- C1 (amended): for every well-formed accepted reference — scheme form
`https://h/o/r[.git][/extra…]`, schemeless `h/o/r`, and SSH form restricted
to the literal `git@` user, `git@h:o/r.git` — `ParseRepoURL` returns
`(h, o, r)`; a trailing `.git` is stripped; extra path segments are ignored;
the three concrete forms `git@github.com:user/repo.git`,
`https://github.com/user/repo.git` and `github.com/user/repo` all yield
`("github.com", "user", "repo")`; and each malformed class — empty input,
SSH form without a colon, fewer than two non-empty path segments — yields a
parse error. -/
theorem C1_parse_correct (h o r : Str) (hh : SegOK h) (ho : SegOK o) (hr : SegOK r)
    (hgit : endsWithL dotGitL r = false) :
    (ParseRepoURL (httpsL ++ (h ++ '/' :: (o ++ '/' :: r))) = .ok (h, o, r))
    ∧ (ParseRepoURL (httpsL ++ (h ++ '/' :: ((o ++ '/' :: r) ++ dotGitL))) = .ok (h, o, r))
    ∧ (ParseRepoURL (h ++ '/' :: (o ++ '/' :: r)) = .ok (h, o, r))
    ∧ (ParseRepoURL (gitAtL ++ (h ++ ':' :: ((o ++ '/' :: r) ++ dotGitL))) = .ok (h, o, r))
    ∧ (∀ e : Str, e ≠ [] → (∀ c ∈ e, c.isWhitespace = false) →
        (∀ d t, e.reverse = d :: t → d ≠ '/') → endsWithL dotGitL e = false →
        ParseRepoURL (httpsL ++ (h ++ '/' :: (o ++ '/' :: (r ++ '/' :: e)))) = .ok (h, o, r))
    ∧ (ParseRepoURL [] = .error .emptyURL)
    ∧ (∀ t : Str, (':' : Char) ∉ t → (∀ c ∈ t, c.isWhitespace = false) →
        ParseRepoURL (gitAtL ++ t) = .error .sshMissingColon)
    ∧ (ParseRepoURL (httpsL ++ (h ++ '/' :: r)) = .error .pathTooShort)
    ∧ (ParseRepoURL ("git@github.com:user/repo.git").toList =
        .ok (("github.com").toList, ("user").toList, ("repo").toList))
    ∧ (ParseRepoURL ("https://github.com/user/repo.git").toList =
        .ok (("github.com").toList, ("user").toList, ("repo").toList))
    ∧ (ParseRepoURL ("github.com/user/repo").toList =
        .ok (("github.com").toList, ("user").toList, ("repo").toList)) := by
  have hwsOR : ∀ c ∈ o ++ '/' :: r, c.isWhitespace = false :=
    ws_false_append ho.noWS (ws_false_cons (by decide) hr.noWS)
  have hwsORG : ∀ c ∈ (o ++ '/' :: r) ++ dotGitL, c.isWhitespace = false :=
    ws_false_append hwsOR (by decide)
  have hColonOR : (':' : Char) ∉ o ++ '/' :: r := by
    intro hm
    rcases List.mem_append.mp hm with hx | hx
    · exact ho.noColon hx
    · rcases List.mem_cons.mp hx with hx | hx
      · exact absurd hx (by decide)
      · exact hr.noColon hx
  have hAtOR : ('@' : Char) ∉ o ++ '/' :: r := by
    intro hm
    rcases List.mem_append.mp hm with hx | hx
    · exact ho.noAt hx
    · rcases List.mem_cons.mp hx with hx | hx
      · exact absurd hx (by decide)
      · exact hr.noAt hx
  have hhColonAll : ∀ c ∈ h, c ≠ ':' := fun c hc => (hh.2 c hc).2.1
  refine ⟨?_, ?_, ?_, ?_, ?_, by decide, ?_, ?_, by decide, by decide, by decide⟩
  · rw [ParseRepoURL_https _ hh hwsOR]
    exact (splitOwnerRepo_main ho.noSlash hr.noSlash hgit).2
  · rw [ParseRepoURL_https _ hh hwsORG]
    exact (splitOwnerRepo_git ho.noSlash hr.noSlash).2
  · rw [ParseRepoURL_schemeless _ hh hwsOR hColonOR hAtOR]
    exact (splitOwnerRepo_main ho.noSlash hr.noSlash hgit).2
  · rw [ParseRepoURL_ssh _ hhColonAll hh.noWS hwsORG]
    exact (splitOwnerRepo_git ho.noSlash hr.noSlash).1
  · intro e he1 he2 he3 he4
    have hws : ∀ c ∈ o ++ '/' :: (r ++ '/' :: e), c.isWhitespace = false :=
      ws_false_append ho.noWS
        (ws_false_cons (by decide) (ws_false_append hr.noWS (ws_false_cons (by decide) he2)))
    rw [ParseRepoURL_https _ hh hws]
    exact splitOwnerRepo_extra ho.noSlash hr.noSlash he1 he3 he4
  · intro t h1 h2
    exact ParseRepoURL_ssh_nocolon h1 h2
  · rw [ParseRepoURL_https _ hh hr.noWS]
    exact splitOwnerRepo_single hr.noSlash hgit

/-- C1 witness: the amended theorem applied at `("github.com", "user",
"repo")`. -/
theorem C1_witness :
    ParseRepoURL (httpsL ++ (("github.com").toList ++ '/' ::
        (("user").toList ++ '/' :: ("repo").toList))) =
      .ok (("github.com").toList, ("user").toList, ("repo").toList) :=
  (C1_parse_correct ("github.com").toList ("user").toList ("repo").toList
    (by decide) (by decide) (by decide) (by decide)).1

/- ### Claim C8 -/

/-- C8 counterexample: by the claim, any non-empty user part is recognized,
so `alice@github.com:owner/repo` should parse to
`("github.com", "owner", "repo")`; `ParseRepoURL` instead fails (only the
literal `git@` prefix is recognized; the URL branch rejects the non-numeric
port `owner`). -/
theorem C8_counterexample :
    ParseRepoURL ("alice@github.com:owner/repo").toList = .error .invalidURL
    ∧ ParseRepoURL ("alice@github.com:owner/repo").toList ≠
        .ok (("github.com").toList, ("owner").toList, ("repo").toList) :=
  ⟨by decide, by decide⟩

/-- C8 (amended): the SSH form is recognized by the literal `git@` prefix
only — the user part is exactly `git`.  For `git@host:owner/repo[.git]` the
host is everything between that prefix and the first following colon, with
the remainder delegated to `splitOwnerRepo`, so the whole form parses to
`(host, owner, repo)`; a missing colon fails with the SSH parse error; and
an input `u@host:owner/repo` whose user part `u` is anything other than the
literal `git` is not SSH-recognized — it falls into the URL branch and (for
plain components whose owner is not all digits) fails with the invalid-URL
parse error instead of yielding `(host, owner, repo)`. -/
theorem C8_ssh_recognition (d p : Str) (hdC : ∀ c ∈ d, c ≠ ':')
    (hdW : ∀ c ∈ d, c.isWhitespace = false) (hpW : ∀ c ∈ p, c.isWhitespace = false) :
    (ParseRepoURL (gitAtL ++ (d ++ ':' :: p)) = splitOwnerRepo d p)
    ∧ (∀ t : Str, (':' : Char) ∉ t → (∀ c ∈ t, c.isWhitespace = false) →
        ParseRepoURL (gitAtL ++ t) = .error .sshMissingColon)
    ∧ (∀ o r : Str, NoSlash o → NoSlash r → (∀ c ∈ o, c.isWhitespace = false) →
        (∀ c ∈ r, c.isWhitespace = false) →
        ParseRepoURL (gitAtL ++ (d ++ ':' :: ((o ++ '/' :: r) ++ dotGitL))) = .ok (d, o, r))
    ∧ (∀ v hst ow rp : Str, ('@' : Char) ∉ v → (':' : Char) ∉ v →
        (∀ c ∈ v, c ≠ '/') → (∀ c ∈ v, c.isWhitespace = false) → v ≠ ['g', 'i', 't'] →
        SegOK hst → SegOK ow → (∃ c ∈ ow, c.isDigit = false) →
        (∀ c ∈ rp, c.isWhitespace = false) → (':' : Char) ∉ rp →
        ParseRepoURL (v ++ '@' :: (hst ++ ':' :: (ow ++ '/' :: rp))) = .error .invalidURL)
    ∧ (ParseRepoURL ("git@github.com:user/repo.git").toList =
        .ok (("github.com").toList, ("user").toList, ("repo").toList)) := by
  refine ⟨ParseRepoURL_ssh p hdC hdW hpW,
    fun _ h1 h2 => ParseRepoURL_ssh_nocolon h1 h2, ?_, ?_, by decide⟩
  · intro o r ho hr hoW hrW
    have hws : ∀ c ∈ (o ++ '/' :: r) ++ dotGitL, c.isWhitespace = false :=
      ws_false_append (ws_false_append hoW (ws_false_cons (by decide) hrW)) (by decide)
    rw [ParseRepoURL_ssh _ hdC hdW hws]
    exact (splitOwnerRepo_git ho hr).1
  · intro v hst ow rp h1 h2 h3 h4 h5 h6 h7 h8 h9 h10
    exact ParseRepoURL_ssh_other_user rp h1 h2 h3 h4 h5 h6 h7 h8 h9 h10

/-- C8 witness: the amended theorem applied at `git@gitea.example:org/proj`. -/
theorem C8_witness :
    ParseRepoURL (gitAtL ++ (("gitea.example").toList ++ ':' :: ("org/proj").toList)) =
      splitOwnerRepo ("gitea.example").toList ("org/proj").toList :=
  (C8_ssh_recognition ("gitea.example").toList ("org/proj").toList
    (by decide) (by decide) (by decide)).1

end Forges

namespace Forges

/- ### Claim C4 -/

/-- C4: `FilterRepos` keeps exactly the repositories passing BOTH the
archived policy and the fork policy (include: no constraint; exclude: reject
flagged; only: reject unflagged), preserves input order (the output is a
sublist of the input), and is idempotent; on the four-element fixture,
`{Archived: Exclude, Forks: Exclude}` yields exactly `[active]` and
`{Archived: Only}` yields exactly `[archived, archived-fork]`. -/
theorem C4_filter (repos : List Repository) (opts : ListOptions) :
    (FilterRepos repos opts).Sublist repos
    ∧ (∀ r, r ∈ FilterRepos repos opts ↔
        r ∈ repos ∧ archivedAllows opts.archived r.archived = true ∧
          forkAllows opts.forks r.fork = true)
    ∧ FilterRepos (FilterRepos repos opts) opts = FilterRepos repos opts
    ∧ FilterRepos demoRepos { archived := .ArchivedExclude, forks := .ForkExclude } = [demoActive]
    ∧ FilterRepos demoRepos { archived := .ArchivedOnly } = [demoArchived, demoArchivedFork] := by
  refine ⟨List.filter_sublist _, ?_, ?_, by decide, by decide⟩
  · intro r
    simp [FilterRepos, List.mem_filter, Bool.and_eq_true]
  · unfold FilterRepos
    rw [List.filter_filter]
    simp

/-- C4 witness: membership in the filtered fixture list, through the
characterization. -/
theorem C4_witness :
    demoActive ∈ FilterRepos demoRepos { archived := .ArchivedExclude, forks := .ForkExclude } :=
  ((C4_filter demoRepos { archived := .ArchivedExclude, forks := .ForkExclude }).2.1
    demoActive).mpr ⟨by decide, by decide, by decide⟩

/- ### Claim C3 -/

/-- C3: `Client.FetchRepository` and `Client.FetchTags` parse the URL, look
the parsed domain up in the registry, and delegate to the registered
adapter, forwarding exactly the parsed owner and repo and returning the
adapter's result unchanged; an unregistered domain fails with the
"no forge registered for domain" routing error; a parse error is returned
unchanged. -/
theorem C3_routing (c : Client) (url : Str) :
    (∀ d o r f, ParseRepoURL url = .ok (d, o, r) → lookupA c.forges d = some f →
        c.FetchRepository url = f.fetchRepository o r ∧ c.FetchTags url = f.fetchTags o r)
    ∧ (∀ d o r, ParseRepoURL url = .ok (d, o, r) → lookupA c.forges d = none →
        c.FetchRepository url = .error (.noForgeRegistered d) ∧
          c.FetchTags url = .error (.noForgeRegistered d))
    ∧ (∀ e, ParseRepoURL url = .error e →
        c.FetchRepository url = .error e ∧ c.FetchTags url = .error e) := by
  refine ⟨?_, ?_, ?_⟩
  · intro d o r f hp hl
    constructor
    · simp [Client.FetchRepository, Client.forgeFor, hp, hl]
    · simp [Client.FetchTags, Client.forgeFor, hp, hl]
  · intro d o r hp hl
    constructor
    · simp [Client.FetchRepository, Client.forgeFor, hp, hl]
    · simp [Client.FetchTags, Client.forgeFor, hp, hl]
  · intro e hp
    constructor
    · simp [Client.FetchRepository, hp]
    · simp [Client.FetchTags, hp]

/-- C3 witness: a client with only `example.com` registered for the mock
forge routes `https://example.com/test/repo` to the mock with owner `test`
and repo `repo`. -/
theorem C3_witness :
    ({ forges := [(("example.com").toList, mockForge)], tokens := [] } : Client).FetchRepository
        ("https://example.com/test/repo").toList =
      mockForge.fetchRepository ("test").toList ("repo").toList :=
  ((C3_routing { forges := [(("example.com").toList, mockForge)], tokens := [] }
      ("https://example.com/test/repo").toList).1
    ("example.com").toList ("test").toList ("repo").toList mockForge (by decide) rfl).1

end Forges

namespace Forges

/- ### Claim C5 -/

/-- C5 counterexample: the claim says the fallback to the user endpoint
happens *exactly* on a not-found from the organization/group endpoint.  Here
the group endpoint fails with HTTP 500 (not a not-found), yet
`ListRepositories` still falls back and returns the user listing instead of
surfacing the 500 error. -/
theorem C5_counterexample :
    gitLabListRepositories [.fail (some 500) (.httpError 500 [] [])] [.page [] 0] {} = .ok []
    ∧ gitLabListRepositories [.fail (some 500) (.httpError 500 [] [])] [.page [] 0] {} ≠
        .error (.httpError 500 [] []) :=
  ⟨by decide, by decide⟩

/-- C5 (amended): for the listing adapters (GitLab, Gitea),
`ListRepositories` attempts the organization/group endpoint first and falls
back to the user endpoint on *any* error from it — in particular on
not-found, whose intermediate 404 is never surfaced (a 404 response maps to
`ErrOwnerNotFound` inside each endpoint walk); a not-found from both
endpoints is reported as the distinct `ErrOwnerNotFound` sentinel. -/
theorem C5_list_fallback :
    (∀ (g u : List (SDKPage GLProject)) (opts : ListOptions) (e : Err),
        gitLabListWalk g = .error e →
        gitLabListRepositories g u opts =
          (match gitLabListWalk u with
           | .ok repos => .ok (FilterRepos repos opts)
           | .error e2 => .error e2))
    ∧ (∀ (e : Err) (rest : List (SDKPage GLProject)),
        gitLabListWalk (.fail (some 404) e :: rest) = .error .ownerNotFound)
    ∧ (∀ (g u : List (SDKPage GLProject)) (opts : ListOptions),
        gitLabListWalk g = .error .ownerNotFound → gitLabListWalk u = .error .ownerNotFound →
        gitLabListRepositories g u opts = .error .ownerNotFound)
    ∧ (∀ (g u : List (GiteaSDKPage GiteaRepoPayload)) (opts : ListOptions) (e : Err),
        giteaListWalk (if opts.perPage ≤ 0 then 50 else opts.perPage) g = .error e →
        giteaListRepositories g u opts =
          (match giteaListWalk (if opts.perPage ≤ 0 then 50 else opts.perPage) u with
           | .ok repos => .ok (FilterRepos repos opts)
           | .error e2 => .error e2))
    ∧ (∀ (perPage : Int) (e : Err) (rest : List (GiteaSDKPage GiteaRepoPayload)),
        giteaListWalk perPage (.fail (some 404) e :: rest) = .error .ownerNotFound)
    ∧ (∀ (g u : List (GiteaSDKPage GiteaRepoPayload)) (opts : ListOptions),
        giteaListWalk (if opts.perPage ≤ 0 then 50 else opts.perPage) g =
          .error .ownerNotFound →
        giteaListWalk (if opts.perPage ≤ 0 then 50 else opts.perPage) u =
          .error .ownerNotFound →
        giteaListRepositories g u opts = .error .ownerNotFound) := by
  refine ⟨?_, ?_, ?_, ?_, ?_, ?_⟩
  · intro g u opts e hg
    simp [gitLabListRepositories, hg]
  · intro e rest
    simp [gitLabListWalk]
  · intro g u opts hg hu
    simp [gitLabListRepositories, hg, hu]
  · intro g u opts e hg
    simp [giteaListRepositories, hg]
  · intro perPage e rest
    simp [giteaListWalk]
  · intro g u opts hg hu
    simp [giteaListRepositories, hg, hu]

/-- C5 witness: a 404 at both GitLab endpoints yields `ErrOwnerNotFound`. -/
theorem C5_witness :
    gitLabListRepositories [.fail (some 404) (.transport [])]
        [.fail (some 404) (.transport [])] {} = .error .ownerNotFound :=
  C5_list_fallback.2.2.1 [.fail (some 404) (.transport [])]
    [.fail (some 404) (.transport [])] {} (by decide) (by decide)

/- ### Claim C6 -/

/-- C6: every adapter's `FetchRepository` and `FetchTags` return the single
`ErrNotFound` sentinel verbatim and unwrapped whenever the provider answers
an explicit HTTP 404; any other error is passed through unchanged, and for
the direct-HTTP Bitbucket adapter any other non-success status becomes the
generic `HTTPError` carrying the status code, the request URL, and the
response body. -/
theorem C6_notfound_sentinel :
    (∀ e, gitHubFetchRepository (.fail (some 404) e) = .error .notFound)
    ∧ (∀ st e, st ≠ some 404 → gitHubFetchRepository (.fail st e) = .error e)
    ∧ (∀ e, gitLabFetchRepository (.fail (some 404) e) = .error .notFound)
    ∧ (∀ st e, st ≠ some 404 → gitLabFetchRepository (.fail st e) = .error e)
    ∧ (∀ e tc, giteaFetchRepository (.fail (some 404) e) tc = .error .notFound)
    ∧ (∀ st e tc, st ≠ some 404 → giteaFetchRepository (.fail st e) tc = .error e)
    ∧ (∀ o r body payload, bitbucketFetchRepository o r (.resp 404 body payload) =
        .error .notFound)
    ∧ (∀ o r s body payload, s ≠ 404 → s ≠ 200 →
        bitbucketFetchRepository o r (.resp s body payload) =
          .error (.httpError s (bbRepoURL o r) body))
    ∧ (∀ e rest, gitHubFetchTags (.fail (some 404) e :: rest) = .error .notFound)
    ∧ (∀ e rest, gitLabFetchTags (.fail (some 404) e :: rest) = .error .notFound)
    ∧ (∀ e rest, giteaFetchTags (.fail (some 404) e :: rest) = .error .notFound)
    ∧ (∀ o r body payload rest,
        bitbucketFetchTags o r (.resp 404 body payload :: rest) = .error .notFound) := by
  refine ⟨?_, ?_, ?_, ?_, ?_, ?_, ?_, ?_, ?_, ?_, ?_, ?_⟩
  · intro e; rfl
  · intro st e hst
    have hb : (st == some 404) = false := beq_eq_false_iff_ne.mpr hst
    simp [gitHubFetchRepository, hb]
  · intro e; rfl
  · intro st e hst
    have hb : (st == some 404) = false := beq_eq_false_iff_ne.mpr hst
    simp [gitLabFetchRepository, hb]
  · intro e tc; rfl
  · intro st e tc hst
    have hb : (st == some 404) = false := beq_eq_false_iff_ne.mpr hst
    simp [giteaFetchRepository, hb]
  · intro o r body payload; rfl
  · intro o r s body payload h404 h200
    have hb4 : (s == 404) = false := beq_eq_false_iff_ne.mpr h404
    have hb2 : (s != 200) = true := bne_iff_ne.mpr h200
    simp [bitbucketFetchRepository, bitbucketGetJSON, hb4, hb2]
  · intro e rest; rfl
  · intro e rest; rfl
  · intro e rest; rfl
  · intro o r body payload rest; rfl

/-- C6 witness: a non-404 SDK error is passed through unchanged by the
GitHub adapter, and a 500 at Bitbucket yields the `HTTPError` diagnostics. -/
theorem C6_witness :
    gitHubFetchRepository (.fail none (.transport [])) = .error (.transport [])
    ∧ bitbucketFetchRepository ("o").toList ("r").toList (.resp 500 ("boom").toList none) =
        .error (.httpError 500 (bbRepoURL ("o").toList ("r").toList) ("boom").toList) :=
  ⟨C6_notfound_sentinel.2.1 none (.transport []) (by decide),
   C6_notfound_sentinel.2.2.2.2.2.2.2.1 ("o").toList ("r").toList 500 ("boom").toList none
     (by decide) (by decide)⟩

end Forges

namespace Forges

/- ### Projection lemmas for the adapter conversions -/

lemma convertGitLabProject_fullName (p : GLProject) :
    (convertGitLabProject p).fullName = p.pathWithNamespace := by
  simp only [convertGitLabProject]
  repeat' split
  all_goals rfl

lemma convertGitLabProject_name (p : GLProject) :
    (convertGitLabProject p).name = p.name := by
  simp only [convertGitLabProject]
  repeat' split
  all_goals rfl

lemma convertGitLabProject_owner {p : GLProject} {ns : GLNamespace}
    (h : p.nspace = some ns) : (convertGitLabProject p).owner = ns.path := by
  simp only [convertGitLabProject, h]
  repeat' split
  all_goals rfl

lemma convertGiteaRepo_fullName (g : GiteaRepoPayload) :
    (convertGiteaRepo g).fullName = g.fullName := by
  simp only [convertGiteaRepo]
  repeat' split
  all_goals rfl

lemma convertGiteaRepo_name (g : GiteaRepoPayload) :
    (convertGiteaRepo g).name = g.name := by
  simp only [convertGiteaRepo]
  repeat' split
  all_goals rfl

lemma convertGiteaRepo_owner (g : GiteaRepoPayload) :
    (convertGiteaRepo g).owner = g.ownerUserName := by
  simp only [convertGiteaRepo]
  repeat' split
  all_goals rfl

lemma convertGitHubRepo_fullName (r : GHRepoPayload) :
    (convertGitHubRepo r).fullName = r.fullName := by
  simp only [convertGitHubRepo]
  repeat' split
  all_goals rfl

lemma convertGitHubRepo_name (r : GHRepoPayload) :
    (convertGitHubRepo r).name = r.name := by
  simp only [convertGitHubRepo]
  repeat' split
  all_goals rfl

lemma convertGitHubRepo_owner (r : GHRepoPayload) :
    (convertGitHubRepo r).owner = r.ownerLogin := by
  simp only [convertGitHubRepo]
  repeat' split
  all_goals rfl

lemma convertBitbucketRepo_fullName (bb : BBRepoPayload) :
    (convertBitbucketRepo bb).fullName = bb.fullName := by
  simp only [convertBitbucketRepo]
  repeat' split
  all_goals rfl

lemma convertBitbucketRepo_name (bb : BBRepoPayload) :
    (convertBitbucketRepo bb).name = bb.slug := by
  simp only [convertBitbucketRepo]
  repeat' split
  all_goals rfl

lemma convertBitbucketRepo_owner {bb : BBRepoPayload} {u : Str}
    (h : bb.ownerUsername = some u) : (convertBitbucketRepo bb).owner = u := by
  simp only [convertBitbucketRepo, h]
  repeat' split
  all_goals rfl

/- ### Claim C7 -/

/-- C7 counterexample: the GitLab adapter accepts a payload whose
`path_with_namespace` (`"a/b"`) disagrees with `namespace.path + "/" + name`
(`"c/d"`); the converted repository then violates
`full_name = owner + "/" + name`, so the claimed invariant does not hold for
every accepted payload. -/
theorem C7_counterexample :
    (convertGitLabProject glInconsistent).fullName = ("a/b").toList
    ∧ (convertGitLabProject glInconsistent).owner = ("c").toList
    ∧ (convertGitLabProject glInconsistent).name = ("d").toList
    ∧ (convertGitLabProject glInconsistent).fullName ≠
        (convertGitLabProject glInconsistent).owner ++ '/' ::
          (convertGitLabProject glInconsistent).name :=
  ⟨by decide, by decide, by decide, by decide⟩

/-- C7 (amended): every adapter copies `FullName` verbatim from the provider
payload (`path_with_namespace` for GitLab, `full_name` for GitHub, Gitea and
Bitbucket) and never recomputes it from `Owner` and `Name`; consequently
`full_name = owner + "/" + name` holds exactly for payloads whose native
fields already satisfy that relation (as genuine provider payloads do). -/
theorem C7_fullname_copied :
    (∀ p : GLProject, (convertGitLabProject p).fullName = p.pathWithNamespace)
    ∧ (∀ g : GiteaRepoPayload, (convertGiteaRepo g).fullName = g.fullName)
    ∧ (∀ r : GHRepoPayload, (convertGitHubRepo r).fullName = r.fullName)
    ∧ (∀ bb : BBRepoPayload, (convertBitbucketRepo bb).fullName = bb.fullName)
    ∧ (∀ (p : GLProject) (ns : GLNamespace), p.nspace = some ns →
        p.pathWithNamespace = ns.path ++ '/' :: p.name →
        (convertGitLabProject p).fullName =
          (convertGitLabProject p).owner ++ '/' :: (convertGitLabProject p).name)
    ∧ (∀ g : GiteaRepoPayload, g.fullName = g.ownerUserName ++ '/' :: g.name →
        (convertGiteaRepo g).fullName =
          (convertGiteaRepo g).owner ++ '/' :: (convertGiteaRepo g).name)
    ∧ (∀ r : GHRepoPayload, r.fullName = r.ownerLogin ++ '/' :: r.name →
        (convertGitHubRepo r).fullName =
          (convertGitHubRepo r).owner ++ '/' :: (convertGitHubRepo r).name)
    ∧ (∀ (bb : BBRepoPayload) (u : Str), bb.ownerUsername = some u →
        bb.fullName = u ++ '/' :: bb.slug →
        (convertBitbucketRepo bb).fullName =
          (convertBitbucketRepo bb).owner ++ '/' :: (convertBitbucketRepo bb).name) := by
  refine ⟨convertGitLabProject_fullName, convertGiteaRepo_fullName, convertGitHubRepo_fullName,
    convertBitbucketRepo_fullName, ?_, ?_, ?_, ?_⟩
  · intro p ns hns hcons
    rw [convertGitLabProject_fullName, convertGitLabProject_owner hns,
      convertGitLabProject_name]
    exact hcons
  · intro g hcons
    rw [convertGiteaRepo_fullName, convertGiteaRepo_owner, convertGiteaRepo_name]
    exact hcons
  · intro r hcons
    rw [convertGitHubRepo_fullName, convertGitHubRepo_owner, convertGitHubRepo_name]
    exact hcons
  · intro bb u hu hcons
    rw [convertBitbucketRepo_fullName, convertBitbucketRepo_owner hu,
      convertBitbucketRepo_name]
    exact hcons

/-- C7 witness: the amended theorem applied to a consistent Gitea payload. -/
theorem C7_witness :
    (convertGiteaRepo giteaConsistent).fullName =
      (convertGiteaRepo giteaConsistent).owner ++ '/' ::
        (convertGiteaRepo giteaConsistent).name :=
  C7_fullname_copied.2.2.2.2.2.1 giteaConsistent (by decide)

end Forges

namespace Forges

/- ### Lemmas about the detection model -/

lemma probeGiteaAPI_error_of_no200 {g : GiteaProbe}
    (h : g.transportErr = true ∨ g.status ≠ 200) : ∃ e, probeGiteaAPI g = .error e := by
  unfold probeGiteaAPI
  cases ht : g.transportErr with
  | true => exact ⟨Err.transport (("gitea probe transport").toList), by simp⟩
  | false =>
    rcases h with h | h
    · rw [ht] at h; cases h
    · have hb : (g.status != 200) = true := bne_iff_ne.mpr h
      exact ⟨Err.transport (("gitea probe status").toList), by simp [hb]⟩

lemma probeURL_no200 {u : URLProbe} (h : u.transportErr = true ∨ u.status ≠ 200) :
    (∃ e, probeURL u = .error e) ∨ probeURL u = .ok false := by
  unfold probeURL
  cases ht : u.transportErr with
  | true => exact .inl ⟨Err.transport (("probe transport").toList), by simp⟩
  | false =>
    rcases h with h | h
    · rw [ht] at h; cases h
    · have hb : (u.status == 200) = false := beq_eq_false_iff_ne.mpr h
      exact .inr (by simp [hb])

lemma detectFromAPI_fail {b : Str} {w : World}
    (h1 : w.apiV1.transportErr = true ∨ w.apiV1.status ≠ 200)
    (h4 : w.apiV4.transportErr = true ∨ w.apiV4.status ≠ 200)
    (h3 : w.apiV3.transportErr = true ∨ w.apiV3.status ≠ 200) :
    detectFromAPI b w = .error (.couldNotDetect b) := by
  obtain ⟨e1, he1⟩ := probeGiteaAPI_error_of_no200 h1
  unfold detectFromAPI
  rw [he1]
  rcases probeURL_no200 h4 with ⟨e4, he4⟩ | he4 <;> rw [he4] <;>
    (rcases probeURL_no200 h3 with ⟨e3, he3⟩ | he3 <;> rw [he3])

lemma probeGiteaAPI_ok_cases {g : GiteaProbe} {ft : ForgeType}
    (h : probeGiteaAPI g = .ok ft) : ft = .forgejo ∨ ft = .gitea := by
  unfold probeGiteaAPI at h
  split_ifs at h <;> cases h <;> tauto

lemma detectFromAPI_ok_cases {b : Str} {w : World} {ft : ForgeType}
    (h : detectFromAPI b w = .ok ft) :
    ft = .github ∨ ft = .gitlab ∨ ft = .gitea ∨ ft = .forgejo := by
  unfold detectFromAPI at h
  cases hg : probeGiteaAPI w.apiV1 with
  | ok f2 =>
    rw [hg] at h
    simp at h
    rcases probeGiteaAPI_ok_cases hg with h2 | h2 <;> rw [h2] at h <;> rw [← h] <;> tauto
  | error e =>
    rw [hg] at h
    cases h4 : probeURL w.apiV4 with
    | ok b4 =>
      rw [h4] at h
      cases b4 with
      | true => simp at h; rw [← h]; tauto
      | false =>
        simp only [] at h
        cases h3 : probeURL w.apiV3 with
        | ok b3 =>
          rw [h3] at h
          cases b3 with
          | true => simp at h; rw [← h]; tauto
          | false => simp at h
        | error e3 => rw [h3] at h; simp at h
    | error e4 =>
      rw [h4] at h
      cases h3 : probeURL w.apiV3 with
      | ok b3 =>
        rw [h3] at h
        cases b3 with
        | true => simp at h; rw [← h]; tauto
        | false => simp at h
      | error e3 => rw [h3] at h; simp at h

lemma detectFromHeaders_ok_cases {h : HeaderProbe} {ft : ForgeType}
    (hh : detectFromHeaders h = .ok ft) :
    ft = .forgejo ∨ ft = .gitea ∨ ft = .gitlab ∨ ft = .github ∨ ft = .unknown := by
  unfold detectFromHeaders at hh
  split_ifs at hh <;> cases hh <;> tauto

lemma DetectForgeType_ok_range {dm : Str} {w : World} {ft : ForgeType}
    (h : DetectForgeType dm w = .ok ft) :
    ft = .github ∨ ft = .gitlab ∨ ft = .gitea ∨ ft = .forgejo := by
  simp only [DetectForgeType] at h
  cases hh : detectFromHeaders w.root with
  | ok f2 =>
    rw [hh] at h
    by_cases hu : f2 = .unknown
    · subst hu
      simp at h
      exact detectFromAPI_ok_cases h
    · have hbne : (f2 != ForgeType.unknown) = true := bne_iff_ne.mpr hu
      rcases detectFromHeaders_ok_cases hh with h2 | h2 | h2 | h2 | h2 <;> subst h2 <;>
        first
        | (exact absurd rfl hu)
        | (simp at h; rw [← h]; tauto)
  | error e =>
    rw [hh] at h
    simp at h
    exact detectFromAPI_ok_cases h

end Forges

namespace Forges

/- ### Claim C2 -/

/-- C2: detection classifies by a strictly ordered cascade — headers first,
in the fixed priority `X-Forgejo-Version`, `X-Gitea-Version`,
`X-Gitlab-Meta`, `X-GitHub-Request-Id` (so a response bearing both the
Forgejo and the Gitea header classifies as Forgejo); only when no header
matched are the API probes consulted, in the fixed order `/api/v1/version`
(200 with a decodable version containing "forgejo" case-insensitively gives
Forgejo, otherwise Gitea), then `/api/v4/version` (200 gives GitLab), then
`/api/v3/meta` (200 gives GitHub). -/
theorem C2_detection_cascade (dm : Str) (w : World) :
    (w.root.transportErr = false → w.root.forgejoVersion ≠ [] →
        DetectForgeType dm w = .ok .forgejo)
    ∧ (w.root.transportErr = false → w.root.forgejoVersion = [] →
        w.root.giteaVersion ≠ [] → DetectForgeType dm w = .ok .gitea)
    ∧ (w.root.transportErr = false → w.root.forgejoVersion = [] →
        w.root.giteaVersion = [] → w.root.gitlabMeta ≠ [] →
        DetectForgeType dm w = .ok .gitlab)
    ∧ (w.root.transportErr = false → w.root.forgejoVersion = [] →
        w.root.giteaVersion = [] → w.root.gitlabMeta = [] →
        w.root.githubRequestId ≠ [] → DetectForgeType dm w = .ok .github)
    ∧ (w.root.transportErr = false → w.root.forgejoVersion = [] →
        w.root.giteaVersion = [] → w.root.gitlabMeta = [] →
        w.root.githubRequestId = [] →
        DetectForgeType dm w = detectFromAPI (httpsL ++ dm) w)
    ∧ (∀ b, w.apiV1.transportErr = false → w.apiV1.status = 200 →
        w.apiV1.decodeOk = true → versionContainsForgejo w.apiV1.version = true →
        detectFromAPI b w = .ok .forgejo)
    ∧ (∀ b, w.apiV1.transportErr = false → w.apiV1.status = 200 →
        w.apiV1.decodeOk = true → versionContainsForgejo w.apiV1.version = false →
        detectFromAPI b w = .ok .gitea)
    ∧ (∀ b, w.apiV1.status ≠ 200 → w.apiV4.transportErr = false →
        w.apiV4.status = 200 → detectFromAPI b w = .ok .gitlab)
    ∧ (∀ b, w.apiV1.status ≠ 200 → w.apiV4.status ≠ 200 →
        w.apiV3.transportErr = false → w.apiV3.status = 200 →
        detectFromAPI b w = .ok .github) := by
  refine ⟨?_, ?_, ?_, ?_, ?_, ?_, ?_, ?_, ?_⟩
  · intro h1 h2
    have hb : (w.root.forgejoVersion != ([] : Str)) = true := bne_iff_ne.mpr h2
    have hne : (ForgeType.forgejo != ForgeType.unknown) = true := by decide
    simp [DetectForgeType, detectFromHeaders, h1, hb, hne]
  · intro h1 h2 h3
    have hb : (w.root.giteaVersion != ([] : Str)) = true := bne_iff_ne.mpr h3
    have hne : (ForgeType.gitea != ForgeType.unknown) = true := by decide
    simp [DetectForgeType, detectFromHeaders, h1, h2, hb, hne]
  · intro h1 h2 h3 h4
    have hb : (w.root.gitlabMeta != ([] : Str)) = true := bne_iff_ne.mpr h4
    have hne : (ForgeType.gitlab != ForgeType.unknown) = true := by decide
    simp [DetectForgeType, detectFromHeaders, h1, h2, h3, hb, hne]
  · intro h1 h2 h3 h4 h5
    have hb : (w.root.githubRequestId != ([] : Str)) = true := bne_iff_ne.mpr h5
    have hne : (ForgeType.github != ForgeType.unknown) = true := by decide
    simp [DetectForgeType, detectFromHeaders, h1, h2, h3, h4, hb, hne]
  · intro h1 h2 h3 h4 h5
    simp [DetectForgeType, detectFromHeaders, h1, h2, h3, h4, h5]
  · intro b h1 h2 h3 h4
    simp [detectFromAPI, probeGiteaAPI, h1, h2, h3, h4]
  · intro b h1 h2 h3 h4
    simp [detectFromAPI, probeGiteaAPI, h1, h2, h3, h4]
  · intro b h1 h4t h4s
    obtain ⟨e1, he1⟩ := probeGiteaAPI_error_of_no200 (.inr h1)
    simp [detectFromAPI, he1, probeURL, h4t, h4s]
  · intro b h1 h4 h3t h3s
    obtain ⟨e1, he1⟩ := probeGiteaAPI_error_of_no200 (.inr h1)
    have hv3 : probeURL w.apiV3 = .ok true := by simp [probeURL, h3t, h3s]
    rcases probeURL_no200 (.inr h4) with ⟨e4, he4⟩ | he4 <;>
      simp [detectFromAPI, he1, he4, hv3]

/-- C2 witness: a response bearing both the Forgejo and the Gitea header
classifies as Forgejo. -/
theorem C2_witness :
    DetectForgeType ("example.org").toList
        { root := { forgejoVersion := ("7.0.0").toList, giteaVersion := ("1.21.0").toList },
          apiV1 := {}, apiV4 := {}, apiV3 := {} } = .ok .forgejo :=
  (C2_detection_cascade ("example.org").toList
      { root := { forgejoVersion := ("7.0.0").toList, giteaVersion := ("1.21.0").toList },
        apiV1 := {}, apiV4 := {}, apiV3 := {} }).1 rfl (by decide)

/- ### Claim C9 -/

/-- C9: a transport failure of the header probe is swallowed — detection
proceeds to the API probes; and when no API probe endpoint answers 200
(transport failure or non-200 status at each), detection fails with the
"could not detect forge type" error. -/
theorem C9_detect_failure (dm : Str) (w : World) :
    (w.root.transportErr = true → DetectForgeType dm w = detectFromAPI (httpsL ++ dm) w)
    ∧ (∀ b, (w.apiV1.transportErr = true ∨ w.apiV1.status ≠ 200) →
        (w.apiV4.transportErr = true ∨ w.apiV4.status ≠ 200) →
        (w.apiV3.transportErr = true ∨ w.apiV3.status ≠ 200) →
        detectFromAPI b w = .error (.couldNotDetect b))
    ∧ (w.root.transportErr = true →
        (w.apiV1.transportErr = true ∨ w.apiV1.status ≠ 200) →
        (w.apiV4.transportErr = true ∨ w.apiV4.status ≠ 200) →
        (w.apiV3.transportErr = true ∨ w.apiV3.status ≠ 200) →
        DetectForgeType dm w = .error (.couldNotDetect (httpsL ++ dm))) := by
  refine ⟨?_, ?_, ?_⟩
  · intro h1
    simp [DetectForgeType, detectFromHeaders, h1]
  · intro b h1 h4 h3
    exact detectFromAPI_fail h1 h4 h3
  · intro h0 h1 h4 h3
    have hsw : DetectForgeType dm w = detectFromAPI (httpsL ++ dm) w := by
      simp [DetectForgeType, detectFromHeaders, h0]
    rw [hsw]
    exact detectFromAPI_fail h1 h4 h3

/-- C9 witness: an unreachable root page plus 404s at all three API probes
yields the terminal "could not detect forge type" error. -/
theorem C9_witness :
    DetectForgeType ("dead.example").toList
        { root := { transportErr := true }, apiV1 := { status := 404 },
          apiV4 := { status := 404 }, apiV3 := { status := 404 } } =
      .error (.couldNotDetect (httpsL ++ ("dead.example").toList)) :=
  (C9_detect_failure ("dead.example").toList
      { root := { transportErr := true }, apiV1 := { status := 404 },
        apiV4 := { status := 404 }, apiV3 := { status := 404 } }).2.2
    rfl (.inr (by decide)) (.inr (by decide)) (.inr (by decide))

/- ### Claim C10 -/

/-- C10: on success `DetectForgeType` only ever returns GitHub, GitLab,
Gitea or Forgejo — never Bitbucket or Unknown — so `Client.RegisterDomain`
either registers a GitHub, GitLab or Gitea adapter or propagates a wrapped
detection error, and its "unsupported forge type" branch is unreachable. -/
theorem C10_detection_range :
    (∀ (dm : Str) (w : World) (ft : ForgeType), DetectForgeType dm w = .ok ft →
        ft = .github ∨ ft = .gitlab ∨ ft = .gitea ∨ ft = .forgejo)
    ∧ (∀ (c : RegClient) (dm tok : Str) (w : World),
        (∃ c2, RegisterDomain c dm tok w = .ok c2)
        ∨ (∃ e, RegisterDomain c dm tok w = .error (.detectWrap dm e)))
    ∧ (∀ (c : RegClient) (dm tok : Str) (w : World) (ftS dmS : Str),
        RegisterDomain c dm tok w ≠ .error (.unsupportedForge ftS dmS)) := by
  refine ⟨fun dm w ft h => DetectForgeType_ok_range h, ?_, ?_⟩
  · intro c dm tok w
    cases hd : DetectForgeType dm w with
    | error e => exact .inr ⟨e, by simp [RegisterDomain, hd]⟩
    | ok ft =>
      refine .inl ?_
      rcases DetectForgeType_ok_range hd with h2 | h2 | h2 | h2 <;> subst h2
      · exact ⟨{ forges := insertA c.forges dm (.githubWithBase (httpsL ++ dm) tok),
                 tokens := insertA c.tokens dm tok }, by simp [RegisterDomain, hd]⟩
      · exact ⟨{ forges := insertA c.forges dm (.gitlabForge (httpsL ++ dm) tok),
                 tokens := insertA c.tokens dm tok }, by simp [RegisterDomain, hd]⟩
      · exact ⟨{ forges := insertA c.forges dm (.giteaForge (httpsL ++ dm) tok),
                 tokens := insertA c.tokens dm tok }, by simp [RegisterDomain, hd]⟩
      · exact ⟨{ forges := insertA c.forges dm (.giteaForge (httpsL ++ dm) tok),
                 tokens := insertA c.tokens dm tok }, by simp [RegisterDomain, hd]⟩
  · intro c dm tok w ftS dmS hcon
    cases hd : DetectForgeType dm w with
    | error e => simp [RegisterDomain, hd] at hcon
    | ok ft =>
      rcases DetectForgeType_ok_range hd with h2 | h2 | h2 | h2 <;> subst h2 <;>
        simp [RegisterDomain, hd] at hcon

/-- C10 witness: a world that detects as Gitea lands in the allowed range. -/
theorem C10_witness :
    ForgeType.gitea = .github ∨ ForgeType.gitea = .gitlab ∨ ForgeType.gitea = .gitea ∨
      ForgeType.gitea = .forgejo :=
  C10_detection_range.1 ("example.org").toList
    { root := {}, apiV1 := { status := 200, decodeOk := true, version := ("1.21.0").toList },
      apiV4 := {}, apiV3 := {} } .gitea (by decide)

end Forges
